import Mathlib

/-!
Verification of the usb-share-bridge core subsystems: the access arbitrator
(MutexLocker), the operation pipeline (FileOperationQueue), the cache layer
(CacheManager), the write scheduler (WriteQueueManager) and the coordinator
(UsbBridge).  Each C++ class is embedded shallowly: its state becomes a
structure, each method a pure function or a labelled transition, machine
integers become Nat with explicit reduction modulo 2 ^ 64 where the source
relies on wrap-around, and time stamps become Nat values supplied by the
environment.  Operations guarded in the source by the per-component mutex are
modelled as atomic transitions; the condition-variable wait inside
requestDirectAccess is split out so that other transitions may interleave
while a caller waits.
-/

namespace MutexFacts

theorem getAppend {α : Type} (l₁ l₂ : List α) (j : Nat) :
    (l₁ ++ l₂).get? j = if j < l₁.length then l₁.get? j else l₂.get? (j - l₁.length) := by
  induction l₁ generalizing j with
  | nil => simp
  | cons a l ih =>
    cases j with
    | zero => simp
    | succ n =>
      have hstep : ((a :: l) ++ l₂).get? (n + 1) = (l ++ l₂).get? n := rfl
      rw [hstep, ih n, List.length_cons]
      by_cases h : n < l.length
      · rw [if_pos h, if_pos (by omega)]
        rfl
      · rw [if_neg h, if_neg (by omega)]
        congr 1
        omega

theorem getSet {α : Type} (l : List α) (i j : Nat) (a : α) :
    (l.set i a).get? j = if i = j ∧ j < l.length then some a else l.get? j := by
  induction l generalizing i j with
  | nil => simp
  | cons b l ih =>
    cases i with
    | zero =>
      cases j with
      | zero => simp
      | succ m => simp [List.set]
    | succ n =>
      cases j with
      | zero => simp [List.set]
      | succ m =>
        simp only [List.set, List.get?, ih n m, List.length_cons]
        by_cases h : n = m ∧ m < l.length
        · rw [if_pos h, if_pos (by omega)]
        · rw [if_neg h, if_neg (by intro hc; exact h (by omega))]

theorem getSomeLt {α : Type} (l : List α) (j : Nat) (a : α) (h : l.get? j = some a) :
    j < l.length := by
  induction l generalizing j with
  | nil => simp [List.get?] at h
  | cons b t ih =>
    cases j with
    | zero => simp
    | succ n => exact Nat.succ_lt_succ (ih n h)

end MutexFacts

namespace MutexLocker

/-- Access modes of the drive, from include/core/MutexLocker.hpp. -/
inductive AccessMode
  | NONE
  | BOARD_MANAGED
  | DIRECT_USB
  | DIRECT_NETWORK
deriving DecidableEq, Repr

/-- Client kinds, from include/core/MutexLocker.hpp. -/
inductive ClientType
  | USB_HOST_1
  | USB_HOST_2
  | NETWORK_SMB
  | NETWORK_HTTP
  | SYSTEM
deriving DecidableEq, Repr

/-- An access grant object, from include/core/MutexLocker.hpp.  Times are in
seconds. -/
structure AccessGrant where
  clientId : String
  clientType : ClientType
  mode : AccessMode
  grantedTime : Nat
  expiryTime : Nat
  operationId : Nat
  isActive : Bool
deriving DecidableEq, Repr

/-- The MutexLocker state.  The list grants holds every grant object ever
created (the targets of the shared pointers kept in m_currentGrant and
m_accessHistory); currentGrant is the index of the object m_currentGrant
points to, if any.  Statistics counters are omitted: no claim depends on
them. -/
structure LockerState where
  currentMode : AccessMode
  currentGrant : Option Nat
  grants : List AccessGrant
  blocked : Bool
  blockReason : String
deriving DecidableEq, Repr

/-- Initial state set up by the MutexLocker constructor. -/
def initialState : LockerState :=
  { currentMode := AccessMode.BOARD_MANAGED
    currentGrant := none
    grants := []
    blocked := false
    blockReason := "" }

/-- The access mode chosen for a grant from the client type
(MutexLocker.cpp lines 96 to 102). -/
def grantMode (clientType : ClientType) : AccessMode :=
  if clientType = ClientType.USB_HOST_1 ∨ clientType = ClientType.USB_HOST_2
  then AccessMode.DIRECT_USB else AccessMode.DIRECT_NETWORK

/-- MutexLocker::grantDirectAccess (MutexLocker.cpp lines 79 to 108): refuses
unless the mode is BOARD_MANAGED; otherwise creates a fresh active grant with
a five-minute expiry and switches the mode according to the client type. -/
def grantDirectAccess (s : LockerState) (clientId : String) (clientType : ClientType)
    (operationId : Nat) (now : Nat) : Bool × LockerState :=
  if s.currentMode ≠ AccessMode.BOARD_MANAGED then (false, s)
  else
    (true,
      { s with currentMode := grantMode clientType
               currentGrant := some s.grants.length
               grants := s.grants ++
                 [{ clientId := clientId, clientType := clientType,
                    mode := grantMode clientType, grantedTime := now,
                    expiryTime := now + 300, operationId := operationId,
                    isActive := true }] })

/-- The grant object the m_currentGrant pointer dereferences to, if any. -/
def currentGrantObj (s : LockerState) : Option AccessGrant :=
  match s.currentGrant with
  | none => none
  | some i => s.grants.get? i

/-- MutexLocker::releaseDirectAccess (MutexLocker.cpp lines 110 to 137): a
no-op when the caller is not the current holder; otherwise deactivates the
grant object and returns to board-managed mode. -/
def releaseDirectAccess (s : LockerState) (clientId : String) : LockerState :=
  match s.currentGrant, currentGrantObj s with
  | some i, some g =>
    if g.clientId ≠ clientId then s
    else
      { s with grants := s.grants.set i { g with isActive := false }
               currentMode := AccessMode.BOARD_MANAGED
               currentGrant := none }
  | _, _ => s

/-- MutexLocker::forceReleaseAll (MutexLocker.cpp lines 157 to 169):
deactivates the current grant when one is active, then unconditionally
restores board-managed mode and clears the current-grant pointer. -/
def forceReleaseAll (s : LockerState) : LockerState :=
  match s.currentGrant, currentGrantObj s with
  | some i, some g =>
    if g.isActive then
      { s with grants := s.grants.set i { g with isActive := false }
               currentMode := AccessMode.BOARD_MANAGED
               currentGrant := none }
    else { s with currentMode := AccessMode.BOARD_MANAGED, currentGrant := none }
  | _, _ => { s with currentMode := AccessMode.BOARD_MANAGED, currentGrant := none }

/-- MutexLocker::blockAccess (MutexLocker.cpp lines 176 to 184). -/
def blockAccess (s : LockerState) (reason : String) : LockerState :=
  { s with blocked := true, blockReason := reason }

/-- MutexLocker::unblockAccess (MutexLocker.cpp lines 186 to 195). -/
def unblockAccess (s : LockerState) : LockerState :=
  if s.blocked then { s with blocked := false, blockReason := "" } else s

/-- MutexLocker::getActiveGrants (MutexLocker.cpp lines 222 to 232): returns
the current grant when it exists and is active, and nothing otherwise. -/
def getActiveGrants (s : LockerState) : List AccessGrant :=
  match currentGrantObj s with
  | none => []
  | some g => if g.isActive then [g] else []

/-- Result of a requestDirectAccess call, as distinguished by the statistics
counters updated on each return path of MutexLocker.cpp lines 24 to 77. -/
inductive ReqResult
  | deniedBlocked
  | timedOut
  | granted
  | deniedGrantFail
deriving DecidableEq, Repr

/-- The branch structure of MutexLocker::requestDirectAccess (MutexLocker.cpp
lines 24 to 77), as a function of what the caller observes: whether the system
was blocked on entry (line 37), whether it is blocked when the wait ends
(line 51), whether the condition wait reported the predicate satisfied rather
than a timeout (line 47), and the mode seen by grantDirectAccess (line 83).
The order of the tests is exactly the order in the source. -/
def requestDirectAccessOutcome (blockedAtEntry blockedAfterWait waitResult : Bool)
    (modeAfterWait : AccessMode) : ReqResult :=
  if blockedAtEntry then ReqResult.deniedBlocked
  else if blockedAfterWait then ReqResult.deniedBlocked
  else if waitResult = false then ReqResult.timedOut
  else if modeAfterWait = AccessMode.BOARD_MANAGED then ReqResult.granted
  else ReqResult.deniedGrantFail

/-- Transitions of the arbitrator.  Each constructor is one return path of a
public MutexLocker method; requestDirectAccess is split into its entry check,
its two failure wake-ups, and the grant attempt performed when the wait ends
with the system unblocked (all of these run under m_mutex in the source, so
each is atomic here, but other transitions may interleave between the entry
of a request and the end of its wait).  cleanupExpiredGrants releases the
current grant through releaseDirectAccess and is covered by the release
constructor. -/
inductive Step : LockerState → LockerState → Prop
  | requestBlockedAtEntry (s : LockerState) (h : s.blocked = true) : Step s s
  | requestBlockedDuringWait (s : LockerState) (h : s.blocked = true) : Step s s
  | requestTimeout (s : LockerState) (h : s.blocked = false) : Step s s
  | requestGrantAttempt (s : LockerState) (clientId : String) (clientType : ClientType)
      (operationId now : Nat) (h : s.blocked = false) :
      Step s (grantDirectAccess s clientId clientType operationId now).2
  | release (s : LockerState) (clientId : String) :
      Step s (releaseDirectAccess s clientId)
  | force (s : LockerState) : Step s (forceReleaseAll s)
  | block (s : LockerState) (reason : String) : Step s (blockAccess s reason)
  | unblock (s : LockerState) : Step s (unblockAccess s)

/-- States reachable from the freshly constructed arbitrator. -/
inductive Reachable : LockerState → Prop
  | init : Reachable initialState
  | step {s s' : LockerState} : Reachable s → Step s s' → Reachable s'

/-- Arbitrator invariant: every active grant object is the one currentGrant
designates; the designated grant is active, non-board-managed and gives the
current mode; and in board-managed mode there is no designated grant. -/
def Inv (s : LockerState) : Prop :=
  (∀ j g, s.grants.get? j = some g → g.isActive = true → s.currentGrant = some j) ∧
  (∀ i, s.currentGrant = some i → ∃ g, s.grants.get? i = some g ∧ g.isActive = true ∧
      s.currentMode = g.mode ∧ g.mode ≠ AccessMode.BOARD_MANAGED) ∧
  (s.currentMode = AccessMode.BOARD_MANAGED → s.currentGrant = none)

theorem grantMode_ne_board (t : ClientType) : grantMode t ≠ AccessMode.BOARD_MANAGED := by
  unfold grantMode
  by_cases h : t = ClientType.USB_HOST_1 ∨ t = ClientType.USB_HOST_2 <;> simp [h]

theorem currentGrantObj_some (s : LockerState) (i : Nat) (h : s.currentGrant = some i) :
    currentGrantObj s = s.grants.get? i := by
  unfold currentGrantObj
  rw [h]

theorem releaseDirectAccess_noop1 (s : LockerState) (c : String)
    (h : s.currentGrant = none) : releaseDirectAccess s c = s := by
  unfold releaseDirectAccess
  rw [h]

theorem releaseDirectAccess_noop2 (s : LockerState) (c : String) (i : Nat)
    (hcg : s.currentGrant = some i) (h : currentGrantObj s = none) :
    releaseDirectAccess s c = s := by
  unfold releaseDirectAccess
  rw [hcg, h]

theorem releaseDirectAccess_eq (s : LockerState) (c : String) (i : Nat) (g : AccessGrant)
    (hcg : s.currentGrant = some i) (hgo : currentGrantObj s = some g) :
    releaseDirectAccess s c =
      if g.clientId ≠ c then s
      else
        { s with grants := s.grants.set i { g with isActive := false }
                 currentMode := AccessMode.BOARD_MANAGED
                 currentGrant := none } := by
  unfold releaseDirectAccess
  rw [hcg, hgo]

theorem forceReleaseAll_noop1 (s : LockerState) (h : s.currentGrant = none) :
    forceReleaseAll s =
      { s with currentMode := AccessMode.BOARD_MANAGED, currentGrant := none } := by
  unfold forceReleaseAll
  rw [h]

theorem forceReleaseAll_noop2 (s : LockerState) (i : Nat)
    (hcg : s.currentGrant = some i) (h : currentGrantObj s = none) :
    forceReleaseAll s =
      { s with currentMode := AccessMode.BOARD_MANAGED, currentGrant := none } := by
  unfold forceReleaseAll
  rw [hcg, h]

theorem forceReleaseAll_eq (s : LockerState) (i : Nat) (g : AccessGrant)
    (hcg : s.currentGrant = some i) (hgo : currentGrantObj s = some g) :
    forceReleaseAll s =
      if g.isActive then
        { s with grants := s.grants.set i { g with isActive := false }
                 currentMode := AccessMode.BOARD_MANAGED
                 currentGrant := none }
      else { s with currentMode := AccessMode.BOARD_MANAGED, currentGrant := none } := by
  unfold forceReleaseAll
  rw [hcg, hgo]

theorem getActiveGrants_none (s : LockerState) (h : currentGrantObj s = none) :
    getActiveGrants s = [] := by
  unfold getActiveGrants
  rw [h]

theorem getActiveGrants_some (s : LockerState) (g : AccessGrant)
    (h : currentGrantObj s = some g) :
    getActiveGrants s = if g.isActive then [g] else [] := by
  unfold getActiveGrants
  rw [h]

theorem inv_initial : Inv initialState := by
  refine ⟨?_, ?_, fun _ => rfl⟩
  · intro j g hj
    simp [initialState, List.get?] at hj
  · intro i hi
    simp [initialState] at hi

theorem inv_step {s s' : LockerState} (hs : Inv s) (hstep : Step s s') : Inv s' := by
  obtain ⟨h1, h2, h3⟩ := hs
  cases hstep with
  | requestBlockedAtEntry h => exact ⟨h1, h2, h3⟩
  | requestBlockedDuringWait h => exact ⟨h1, h2, h3⟩
  | requestTimeout h => exact ⟨h1, h2, h3⟩
  | requestGrantAttempt c t oid now h =>
    by_cases hm : s.currentMode = AccessMode.BOARD_MANAGED
    · have hnone : s.currentGrant = none := h3 hm
      have hcond : ¬ (s.currentMode ≠ AccessMode.BOARD_MANAGED) := fun hcon => hcon hm
      unfold grantDirectAccess
      rw [if_neg hcond]
      refine ⟨?_, ?_, ?_⟩
      · intro j g hj hact
        dsimp only at hj ⊢
        rw [MutexFacts.getAppend] at hj
        by_cases hlt : j < s.grants.length
        · rw [if_pos hlt] at hj
          have hcur := h1 j g hj hact
          rw [hnone] at hcur
          cases hcur
        · rw [if_neg hlt] at hj
          rcases hsub : j - s.grants.length with _ | k
          · rw [hsub] at hj
            simp only [List.get?] at hj
            congr 1
            omega
          · rw [hsub] at hj
            simp only [List.get?] at hj
            exact Option.noConfusion hj
      · intro i hi
        dsimp only at hi ⊢
        injection hi with hii
        subst hii
        refine ⟨{ clientId := c, clientType := t, mode := grantMode t, grantedTime := now,
                  expiryTime := now + 300, operationId := oid, isActive := true },
                ?_, rfl, rfl, grantMode_ne_board t⟩
        rw [MutexFacts.getAppend]
        rw [if_neg (by omega)]
        simp [List.get?]
      · intro hmode
        dsimp only at hmode
        exact absurd hmode (grantMode_ne_board t)
    · unfold grantDirectAccess
      rw [if_pos hm]
      exact ⟨h1, h2, h3⟩
  | release c =>
    cases hcg : s.currentGrant with
    | none =>
      rw [releaseDirectAccess_noop1 s c hcg]
      exact ⟨h1, h2, h3⟩
    | some i =>
      cases hgo : currentGrantObj s with
      | none =>
        rw [releaseDirectAccess_noop2 s c i hcg hgo]
        exact ⟨h1, h2, h3⟩
      | some g =>
        have hgi : s.grants.get? i = some g := (currentGrantObj_some s i hcg).symm.trans hgo
        rw [releaseDirectAccess_eq s c i g hcg hgo]
        by_cases hc : g.clientId ≠ c
        · rw [if_pos hc]
          exact ⟨h1, h2, h3⟩
        · rw [if_neg hc]
          refine ⟨?_, ?_, fun _ => rfl⟩
          · intro j g' hj hact'
            dsimp only at hj
            rw [MutexFacts.getSet] at hj
            by_cases hij : i = j ∧ j < s.grants.length
            · rw [if_pos hij] at hj
              injection hj with hj'
              rw [← hj'] at hact'
              cases hact'
            · rw [if_neg hij] at hj
              have hcur := h1 j g' hj hact'
              rw [hcg] at hcur
              injection hcur with hii
              exact absurd ⟨hii, MutexFacts.getSomeLt s.grants j g' hj⟩ hij
          · intro i' hi'
            dsimp only at hi'
            cases hi'
  | force =>
    cases hcg : s.currentGrant with
    | none =>
      rw [forceReleaseAll_noop1 s hcg]
      refine ⟨?_, ?_, fun _ => rfl⟩
      · intro j g' hj hact'
        dsimp only at hj
        have hcur := h1 j g' hj hact'
        rw [hcg] at hcur
        cases hcur
      · intro i' hi'
        dsimp only at hi'
        cases hi'
    | some i =>
      cases hgo : currentGrantObj s with
      | none =>
        have hgi : s.grants.get? i = none := (currentGrantObj_some s i hcg).symm.trans hgo
        rw [forceReleaseAll_noop2 s i hcg hgo]
        refine ⟨?_, ?_, fun _ => rfl⟩
        · intro j g' hj hact'
          dsimp only at hj
          have hcur := h1 j g' hj hact'
          rw [hcg] at hcur
          injection hcur with hii
          rw [← hii, hgi] at hj
          cases hj
        · intro i' hi'
          dsimp only at hi'
          cases hi'
      | some g =>
        have hgi : s.grants.get? i = some g := (currentGrantObj_some s i hcg).symm.trans hgo
        rw [forceReleaseAll_eq s i g hcg hgo]
        by_cases hA : g.isActive = true
        · rw [if_pos hA]
          refine ⟨?_, ?_, fun _ => rfl⟩
          · intro j g' hj hact'
            dsimp only at hj
            rw [MutexFacts.getSet] at hj
            by_cases hij : i = j ∧ j < s.grants.length
            · rw [if_pos hij] at hj
              injection hj with hj'
              rw [← hj'] at hact'
              cases hact'
            · rw [if_neg hij] at hj
              have hcur := h1 j g' hj hact'
              rw [hcg] at hcur
              injection hcur with hii
              exact absurd ⟨hii, MutexFacts.getSomeLt s.grants j g' hj⟩ hij
          · intro i' hi'
            dsimp only at hi'
            cases hi'
        · rw [if_neg hA]
          refine ⟨?_, ?_, fun _ => rfl⟩
          · intro j g' hj hact'
            dsimp only at hj
            have hcur := h1 j g' hj hact'
            rw [hcg] at hcur
            injection hcur with hii
            rw [← hii, hgi] at hj
            injection hj with hj'
            rw [← hj'] at hact'
            exact absurd hact' hA
          · intro i' hi'
            dsimp only at hi'
            cases hi'
  | block r => exact ⟨h1, h2, h3⟩
  | unblock =>
    unfold unblockAccess
    by_cases hb : s.blocked = true
    · rw [if_pos hb]
      exact ⟨h1, h2, h3⟩
    · rw [if_neg hb]
      exact ⟨h1, h2, h3⟩

theorem inv_reachable {s : LockerState} (h : Reachable s) : Inv s := by
  induction h with
  | init => exact inv_initial
  | step _ hstep ih => exact inv_step ih hstep

/-- Claim C1: from the initial board-managed state, under every sequence of
arbitrator operations, at most one grant object is ever active (so
getActiveGrants returns at most one element), and a grant attempt that
returns success happens only in a state where no previously created grant is
still active: a second requestDirectAccess can never succeed while an
earlier grant is active. -/
theorem claimC1_grant_uniqueness (s : LockerState) (h : Reachable s) :
    (getActiveGrants s).length ≤ 1 ∧
    (∀ j k g g', s.grants.get? j = some g → s.grants.get? k = some g' →
        g.isActive = true → g'.isActive = true → j = k) ∧
    (∀ c t oid now, (grantDirectAccess s c t oid now).1 = true →
        ∀ j g, s.grants.get? j = some g → g.isActive = false) := by
  obtain ⟨h1, h2, h3⟩ := inv_reachable h
  refine ⟨?_, ?_, ?_⟩
  · cases hgo : currentGrantObj s with
    | none =>
      rw [getActiveGrants_none s hgo]
      exact Nat.zero_le 1
    | some g =>
      rw [getActiveGrants_some s g hgo]
      by_cases hg : g.isActive = true
      · rw [if_pos hg]
        exact Nat.le_refl 1
      · rw [if_neg hg]
        exact Nat.zero_le 1
  · intro j k g g' hj hk hgj hgk
    have e1 := h1 j g hj hgj
    have e2 := h1 k g' hk hgk
    rw [e1] at e2
    exact Option.some.inj e2
  · intro c t oid now hgranted j g hj
    by_cases hm : s.currentMode = AccessMode.BOARD_MANAGED
    · have hnone : s.currentGrant = none := h3 hm
      cases hcase : g.isActive with
      | false => rfl
      | true =>
        have hcur := h1 j g hj hcase
        rw [hnone] at hcur
        cases hcur
    · unfold grantDirectAccess at hgranted
      rw [if_pos hm] at hgranted
      cases hgranted

/-- Witness for claim C1: the state after one successful grant is reachable
and satisfies the conclusions. -/
theorem claimC1_grant_uniqueness_witness :
    (getActiveGrants (grantDirectAccess initialState "usb1" ClientType.USB_HOST_1 7 0).2).length ≤ 1 := by
  have hreach : Reachable (grantDirectAccess initialState "usb1" ClientType.USB_HOST_1 7 0).2 :=
    Reachable.step Reachable.init
      (Step.requestGrantAttempt initialState "usb1" ClientType.USB_HOST_1 7 0 rfl)
  exact (claimC1_grant_uniqueness _ hreach).1

/-- Claim C7: requestDirectAccess issued while access is already blocked
fails immediately with the denied result, independently of any wait outcome;
a block that arrives while the caller is waiting also yields the denied
result, even when the wait simultaneously reports a timeout (block detection
has priority over timeout, since the blocked test at line 51 of
MutexLocker.cpp precedes the timeout test at line 58); the timeout result
only arises when the system is not blocked. -/
theorem claimC7_block_beats_timeout :
    (∀ blockedAfterWait waitResult mode,
        requestDirectAccessOutcome true blockedAfterWait waitResult mode =
          ReqResult.deniedBlocked) ∧
    (∀ waitResult mode,
        requestDirectAccessOutcome false true waitResult mode = ReqResult.deniedBlocked) ∧
    (∀ mode, requestDirectAccessOutcome false false false mode = ReqResult.timedOut) :=
  ⟨fun _ _ _ => rfl, fun _ _ => rfl, fun _ => rfl⟩

end MutexLocker

namespace FileOperationQueue

/-- Operation states, from include/core/FileOperationQueue.hpp. -/
inductive OperationStatus
  | QUEUED
  | IN_PROGRESS
  | COMPLETED
  | FAILED
  | DIRECT_ACCESS_REQUIRED
deriving DecidableEq, Repr

/-- The fields of a FileOperation that the claims examine.  endTime is in
seconds. -/
structure FileOperation where
  id : Nat
  status : OperationStatus
  clientId : String
  localBufferPath : String
  endTime : Nat
deriving DecidableEq, Repr

/-- The operation bookkeeping of FileOperationQueue: the values of the
m_operations map (ids are its keys, so they are unique) and the ids held in
the FIFO m_queue. -/
structure QState where
  operations : List FileOperation
  queue : List Nat
deriving DecidableEq, Repr

/-- Lookup in the m_operations map. -/
def findOperation (ops : List FileOperation) (operationId : Nat) : Option FileOperation :=
  ops.find? (fun op => op.id == operationId)

/-- FileOperationQueue::cancelOperation (FileOperationQueue.cpp lines 474 to
502): false for an unknown id; false without change for an IN_PROGRESS
operation; otherwise the operation is removed from the pending queue (the
queue is rebuilt skipping the id, lines 489 to 497) and erased from
m_operations (line 499), and true is returned. -/
def cancelOperation (s : QState) (operationId : Nat) : Bool × QState :=
  match findOperation s.operations operationId with
  | none => (false, s)
  | some op =>
    if op.status = OperationStatus.IN_PROGRESS then (false, s)
    else
      (true, { operations := s.operations.filter (fun o => o.id != operationId)
               queue := s.queue.filter (fun j => j != operationId) })

theorem cancelOperation_noneEq (s : QState) (operationId : Nat)
    (h : findOperation s.operations operationId = none) :
    cancelOperation s operationId = (false, s) := by
  unfold cancelOperation
  rw [h]

theorem cancelOperation_someEq (s : QState) (operationId : Nat) (op : FileOperation)
    (h : findOperation s.operations operationId = some op) :
    cancelOperation s operationId =
      if op.status = OperationStatus.IN_PROGRESS then (false, s)
      else
        (true, { operations := s.operations.filter (fun o => o.id != operationId)
                 queue := s.queue.filter (fun j => j != operationId) }) := by
  unfold cancelOperation
  rw [h]

theorem findOperation_filter_self (l : List FileOperation) (operationId : Nat) :
    findOperation (l.filter (fun o => o.id != operationId)) operationId = none := by
  unfold findOperation
  rw [List.find?_eq_none]
  intro x hx
  have hmem := List.mem_filter.mp hx
  have hne : (x.id != operationId) = true := hmem.2
  simp only [bne_iff_ne, ne_eq] at hne
  simp only [beq_iff_eq]
  exact hne

/-- A concrete table holding one already-completed operation. -/
def exCancelState : QState :=
  { operations := [{ id := 1, status := OperationStatus.COMPLETED, clientId := "smb",
                     localBufferPath := "", endTime := 10 }]
    queue := [] }

/-- Claim C6 counterexample: cancelOperation on an operation whose status is
COMPLETED (not QUEUED) returns true and erases it, while the claim requires
it to return false and leave non-QUEUED operations unchanged. -/
theorem claimC6_counterexample :
    (findOperation exCancelState.operations 1).map (fun op => op.status) =
      some OperationStatus.COMPLETED ∧
    (cancelOperation exCancelState 1).1 = true ∧
    (cancelOperation exCancelState 1).2.operations = [] := by
  refine ⟨rfl, rfl, rfl⟩

/-- Claim C6 amended: cancelOperation(id) returns true if and only if an
operation with that id exists and its status is not IN_PROGRESS (any other
status, QUEUED as well as the terminal ones, is cancellable); when it returns
true the operation is removed from the table and from the pending queue; when
it returns false (unknown id, or IN_PROGRESS) the state is unchanged. -/
theorem claimC6_cancel_spec (s : QState) (operationId : Nat) :
    ((cancelOperation s operationId).1 = true ↔
      ∃ op, findOperation s.operations operationId = some op ∧
            op.status ≠ OperationStatus.IN_PROGRESS) ∧
    ((cancelOperation s operationId).1 = false → (cancelOperation s operationId).2 = s) ∧
    ((cancelOperation s operationId).1 = true →
      findOperation (cancelOperation s operationId).2.operations operationId = none ∧
      ∀ j ∈ (cancelOperation s operationId).2.queue, j ≠ operationId) := by
  cases hf : findOperation s.operations operationId with
  | none =>
    rw [cancelOperation_noneEq s operationId hf]
    refine ⟨⟨fun hc => Bool.noConfusion hc, ?_⟩, fun _ => rfl, fun hc => Bool.noConfusion hc⟩
    rintro ⟨op, hop, _⟩
    exact Option.noConfusion hop
  | some op =>
    rw [cancelOperation_someEq s operationId op hf]
    by_cases hs : op.status = OperationStatus.IN_PROGRESS
    · rw [if_pos hs]
      refine ⟨⟨fun hc => Bool.noConfusion hc, ?_⟩, fun _ => rfl,
              fun hc => Bool.noConfusion hc⟩
      rintro ⟨op', hop', hne⟩
      injection hop' with he
      exact absurd (he ▸ hs) hne
    · rw [if_neg hs]
      refine ⟨⟨fun _ => ⟨op, rfl, hs⟩, fun _ => rfl⟩, fun hc => Bool.noConfusion hc,
              fun _ => ⟨?_, ?_⟩⟩
      · exact findOperation_filter_self s.operations operationId
      · intro j hj
        have hmem := List.mem_filter.mp hj
        have hne : (j != operationId) = true := hmem.2
        simpa [bne_iff_ne] using hne

/-- Witness for claim C6 amended at a table holding one QUEUED operation. -/
theorem claimC6_cancel_spec_witness :
    (cancelOperation { operations := [{ id := 2, status := OperationStatus.QUEUED,
                                        clientId := "http", localBufferPath := "",
                                        endTime := 0 }], queue := [2] } 2).1 = true := by
  have h := claimC6_cancel_spec
    { operations := [{ id := 2, status := OperationStatus.QUEUED, clientId := "http",
                       localBufferPath := "", endTime := 0 }], queue := [2] } 2
  exact h.1.mpr ⟨_, rfl, by decide⟩

/-- 2 ^ 64, the modulus of the uint64_t arithmetic used by
m_currentBufferUsage. -/
def U64 : Nat := 2 ^ 64

/-- The buffer accounting of FileOperationQueue: m_maxLocalBufferSize and
m_currentBufferUsage (a uint64_t, tracked modulo 2 ^ 64), together with the
outstanding allocations made through allocateLocalBuffer (path and nominal
size) and the files present on the local filesystem with their sizes (buffer
files once written, and any client-supplied local files).  The constructor is
modelled with an empty buffer directory, so the initial usage is 0. -/
structure BufferState where
  maxLocalBufferSize : Nat
  currentBufferUsage : Nat
  allocations : List (String × Nat)
  diskFiles : List (String × Nat)
deriving DecidableEq, Repr

/-- FileOperationQueue::getAvailableBufferSpace (lines 459 to 463). -/
def getAvailableBufferSpace (b : BufferState) : Nat :=
  if b.maxLocalBufferSize > b.currentBufferUsage
  then b.maxLocalBufferSize - b.currentBufferUsage else 0

/-- FileOperationQueue::hasBufferSpace (lines 470 to 472). -/
def hasBufferSpace (b : BufferState) (requiredSize : Nat) : Bool :=
  decide (getAvailableBufferSpace b ≥ requiredSize)

/-- FileOperationQueue::allocateLocalBuffer (lines 410 to 427): fails without
change when the space check fails; otherwise adds the requested size to
m_currentBufferUsage (uint64 addition) and returns a fresh path.  The file
itself is not created here; the caller writes it later. -/
def allocateLocalBuffer (b : BufferState) (path : String) (size : Nat) :
    Option String × BufferState :=
  if hasBufferSpace b size then
    (some path,
      { b with currentBufferUsage := (b.currentBufferUsage + size) % U64
               allocations := b.allocations ++ [(path, size)] })
  else (none, b)

/-- Size of the file at a path, as fs::file_size reports it. -/
def lookupFile (files : List (String × Nat)) (path : String) : Option Nat :=
  (files.find? (fun f => f.1 == path)).map (fun f => f.2)

/-- FileOperationQueue::releaseLocalBuffer (lines 429 to 441): reads the
on-disk size of the file at the given path, removes the file, and subtracts
that size from m_currentBufferUsage with uint64 wrap-around; when the file
does not exist, fs::file_size throws, the exception is caught, and nothing
changes.  The outstanding allocation for the path, if any, ends here. -/
def releaseLocalBuffer (b : BufferState) (path : String) : BufferState :=
  match lookupFile b.diskFiles path with
  | none => b
  | some size =>
    { b with currentBufferUsage := (b.currentBufferUsage + (U64 - size % U64)) % U64
             diskFiles := b.diskFiles.filter (fun f => f.1 != path)
             allocations := b.allocations.filter (fun f => f.1 != path) }

/-- The buffer-side effect of a successful FileOperationQueue::executeWrite
(lines 361 to 390): the data is copied from op.localBufferPath to the drive
and then releaseLocalBuffer is invoked on op.localBufferPath (line 384).  For
a WRITE operation this path is the caller-supplied local file (queueWrite,
line 130); executeWrite performs no allocateLocalBuffer call. -/
def executeWriteBufferEffect (b : BufferState) (localBufferPath : String) : BufferState :=
  releaseLocalBuffer b localBufferPath

/-- Sum of the sizes of the outstanding allocations. -/
def sumAllocations (l : List (String × Nat)) : Nat :=
  (l.map (fun f => f.2)).sum

/-- An empty buffer pool of 100 bytes next to a 1-byte client file. -/
def exWriteBuffer : BufferState :=
  { maxLocalBufferSize := 100, currentBufferUsage := 0,
    allocations := [], diskFiles := [("tmp-upload.dat", 1)] }

/-- Claim C3 fails on the code: with an empty buffer pool (usage 0) and a
1-byte client write that passes the queueWrite space pre-check, the
releaseLocalBuffer call at the end of executeWrite subtracts the size of the
client file, which was never allocated from the pool, so m_currentBufferUsage
underflows to 2 ^ 64 - 1: it no longer equals the sum of outstanding
allocations (0) and exceeds maxLocalBufferSize. -/
theorem claimC3_write_underflow :
    hasBufferSpace exWriteBuffer 1 = true ∧
    (executeWriteBufferEffect exWriteBuffer "tmp-upload.dat").currentBufferUsage = U64 - 1 ∧
    sumAllocations (executeWriteBufferEffect exWriteBuffer "tmp-upload.dat").allocations = 0 ∧
    (executeWriteBufferEffect exWriteBuffer "tmp-upload.dat").currentBufferUsage >
      (executeWriteBufferEffect exWriteBuffer "tmp-upload.dat").maxLocalBufferSize := by
  refine ⟨rfl, ?_, rfl, ?_⟩
  · show (0 + (U64 - 1 % U64)) % U64 = U64 - 1
    norm_num [U64]
  · show (0 + (U64 - 1 % U64)) % U64 > 100
    norm_num [U64]

/-- FileOperationQueue::cleanupCompletedOperations purge test (lines 559 to
565): an operation is purged when its status is COMPLETED or FAILED and its
end time lies at least olderThan seconds in the past. -/
def shouldPurge (now olderThan : Nat) (op : FileOperation) : Bool :=
  (op.status == OperationStatus.COMPLETED || op.status == OperationStatus.FAILED) &&
  decide ((olderThan : Int) ≤ (now : Int) - (op.endTime : Int))

/-- FileOperationQueue::cleanupCompletedOperations (lines 553 to 582):
removes every operation satisfying the purge test from m_operations, and for
each removed operation whose localBufferPath is non-empty invokes
releaseLocalBuffer on it (lines 566 to 569).  The pending queue is not
touched. -/
def cleanupCompletedOperations (s : QState) (b : BufferState) (now olderThan : Nat) :
    QState × BufferState :=
  ( { operations := s.operations.filter (fun op => !(shouldPurge now olderThan op))
      queue := s.queue },
    (s.operations.filter (fun op => shouldPurge now olderThan op)).foldl
      (fun acc op =>
        if op.localBufferPath != "" then releaseLocalBuffer acc op.localBufferPath else acc)
      b )

/-- A table holding one old operation stuck in DIRECT_ACCESS_REQUIRED. -/
def exCleanupState : QState :=
  { operations := [{ id := 1, status := OperationStatus.DIRECT_ACCESS_REQUIRED,
                     clientId := "usb1", localBufferPath := "", endTime := 0 }]
    queue := [] }

/-- An empty buffer pool used by the cleanup counterexample. -/
def exCleanupBuffer : BufferState :=
  { maxLocalBufferSize := 100, currentBufferUsage := 0, allocations := [], diskFiles := [] }

/-- Claim C9 counterexample: a DIRECT_ACCESS_REQUIRED operation that ended at
time 0 is 1000 seconds old, far past the 10 second threshold, yet
cleanupCompletedOperations retains it: the purge test at lines 560 to 561
checks only COMPLETED and FAILED. -/
theorem claimC9_counterexample :
    (exCleanupState.operations.map (fun op => op.status)) =
      [OperationStatus.DIRECT_ACCESS_REQUIRED] ∧
    (10 : Int) ≤ (1000 : Int) - 0 ∧
    (cleanupCompletedOperations exCleanupState exCleanupBuffer 1000 10).1.operations =
      exCleanupState.operations := by
  refine ⟨rfl, by norm_num, rfl⟩

/-- Claim C9 amended: cleanupCompletedOperations(olderThan) purges exactly
the operations whose status is COMPLETED or FAILED and whose end time is at
least olderThan old (reclaiming, for each purged operation, any buffer file
its localBufferPath still names); operations in DIRECT_ACCESS_REQUIRED and
all non-terminal or younger operations are retained — in particular a
DIRECT_ACCESS_REQUIRED operation is never purged, whatever its age. -/
theorem claimC9_cleanup_spec (s : QState) (b : BufferState) (now olderThan : Nat) :
    (∀ op ∈ s.operations,
      (op ∈ (cleanupCompletedOperations s b now olderThan).1.operations ↔
        ¬ ((op.status = OperationStatus.COMPLETED ∨ op.status = OperationStatus.FAILED) ∧
           (olderThan : Int) ≤ (now : Int) - (op.endTime : Int)))) ∧
    (∀ op ∈ s.operations, op.status = OperationStatus.DIRECT_ACCESS_REQUIRED →
        op ∈ (cleanupCompletedOperations s b now olderThan).1.operations) ∧
    (∀ op ∈ s.operations, shouldPurge now olderThan op = true →
        op.status = OperationStatus.COMPLETED ∨ op.status = OperationStatus.FAILED) := by
  have hiff : ∀ op : FileOperation,
      shouldPurge now olderThan op = true ↔
        ((op.status = OperationStatus.COMPLETED ∨ op.status = OperationStatus.FAILED) ∧
         (olderThan : Int) ≤ (now : Int) - (op.endTime : Int)) := by
    intro op
    unfold shouldPurge
    rw [Bool.and_eq_true, Bool.or_eq_true, beq_iff_eq, beq_iff_eq, decide_eq_true_eq]
  refine ⟨?_, ?_, ?_⟩
  · intro op hop
    constructor
    · intro hmem hcond
      have hfilter := (List.mem_filter.mp hmem).2
      rw [Bool.not_eq_true'] at hfilter
      rw [← hiff op] at hcond
      rw [hcond] at hfilter
      exact Bool.noConfusion hfilter
    · intro hcond
      refine List.mem_filter.mpr ⟨hop, ?_⟩
      rw [Bool.not_eq_true']
      cases hsp : shouldPurge now olderThan op with
      | false => rfl
      | true => exact absurd ((hiff op).mp hsp) hcond
  · intro op hop hst
    refine List.mem_filter.mpr ⟨hop, ?_⟩
    rw [Bool.not_eq_true']
    cases hsp : shouldPurge now olderThan op with
    | false => rfl
    | true =>
      rcases ((hiff op).mp hsp).1 with hc | hc <;> rw [hst] at hc <;> exact OperationStatus.noConfusion hc
  · intro op hop hsp
    exact ((hiff op).mp hsp).1

/-- Witness for claim C9 amended: at the concrete cleanup state, the old
DIRECT_ACCESS_REQUIRED operation is retained. -/
theorem claimC9_cleanup_spec_witness :
    { id := 1, status := OperationStatus.DIRECT_ACCESS_REQUIRED, clientId := "usb1",
      localBufferPath := "", endTime := 0 } ∈
      (cleanupCompletedOperations exCleanupState exCleanupBuffer 1000 10).1.operations := by
  have h := claimC9_cleanup_spec exCleanupState exCleanupBuffer 1000 10
  exact h.2.1 _ (by decide) rfl

/-- The queue discipline of the pipeline worker, abstracted to what claim C4
needs: ids are assigned by nextOperationId (m_nextId starts at 1 and is
post-incremented, lines 18 and 589 to 591); every queueX method appends the
new id at the back of the FIFO m_queue; the single worker of processQueue
(lines 238 to 298) pops the front operation, executes it, and moves it to a
terminal state (COMPLETED, FAILED or DIRECT_ACCESS_REQUIRED) before popping
the next one.  terminalOrder records the ids in the order they reach a
terminal state.  No cancellation transitions are included, matching the
claim. -/
structure PipelineState where
  queue : List Nat
  nextId : Nat
  terminalOrder : List Nat
deriving DecidableEq, Repr

/-- State set up by the FileOperationQueue constructor: m_nextId = 1. -/
def pipelineInit : PipelineState :=
  { queue := [], nextId := 1, terminalOrder := [] }

/-- Submissions append at the back with the next id; the worker drains the
front and terminalizes it. -/
inductive PipelineStep : PipelineState → PipelineState → Prop
  | submit (s : PipelineState) :
      PipelineStep s
        { queue := s.queue ++ [s.nextId], nextId := s.nextId + 1,
          terminalOrder := s.terminalOrder }
  | process (s : PipelineState) (i : Nat) (rest : List Nat) (h : s.queue = i :: rest) :
      PipelineStep s
        { queue := rest, nextId := s.nextId, terminalOrder := s.terminalOrder ++ [i] }

inductive PipelineReachable : PipelineState → Prop
  | init : PipelineReachable pipelineInit
  | step {s s' : PipelineState} :
      PipelineReachable s → PipelineStep s s' → PipelineReachable s'

/-- Pipeline invariant: the terminalized ids followed by the queued ids are
strictly increasing, and all of them are below the id counter. -/
def PipelineInv (s : PipelineState) : Prop :=
  List.Pairwise (· < ·) (s.terminalOrder ++ s.queue) ∧
  ∀ i ∈ s.terminalOrder ++ s.queue, i < s.nextId

theorem pipelineInv_init : PipelineInv pipelineInit := by
  constructor
  · exact List.Pairwise.nil
  · intro i hi
    simp [pipelineInit] at hi

theorem pipelineInv_step {s s' : PipelineState} (hs : PipelineInv s)
    (hstep : PipelineStep s s') : PipelineInv s' := by
  obtain ⟨hpair, hbound⟩ := hs
  cases hstep with
  | submit =>
    constructor
    · dsimp only
      rw [← List.append_assoc]
      rw [List.pairwise_append]
      refine ⟨hpair, List.pairwise_singleton _ _, ?_⟩
      intro a ha b hb
      rw [List.mem_singleton] at hb
      rw [hb]
      exact hbound a ha
    · dsimp only
      intro i hi
      rw [← List.append_assoc, List.mem_append] at hi
      cases hi with
      | inl hmem => exact Nat.lt_succ_of_lt (hbound i hmem)
      | inr hmem =>
        rw [List.mem_singleton] at hmem
        rw [hmem]
        exact Nat.lt_succ_self _
  | process i rest h =>
    have hperm : s.terminalOrder ++ s.queue = (s.terminalOrder ++ [i]) ++ rest := by
      rw [h, List.append_assoc]
      rfl
    constructor
    · dsimp only
      rw [← hperm]
      exact hpair
    · dsimp only
      intro j hj
      rw [← hperm] at hj
      exact hbound j hj

theorem pipelineInv_reachable {s : PipelineState} (h : PipelineReachable s) :
    PipelineInv s := by
  induction h with
  | init => exact pipelineInv_init
  | step _ hstep ih => exact pipelineInv_step ih hstep

/-- Claim C4: with no cancellations, ids are assigned strictly increasing at
submission (every queued id is below the counter and the queue is strictly
increasing), the worker drains the queue in FIFO order, and the ids reach
terminal states in strictly increasing — hence non-decreasing — order of
submission. -/
theorem claimC4_fifo_terminal_order (s : PipelineState) (h : PipelineReachable s) :
    List.Pairwise (· ≤ ·) s.terminalOrder ∧
    List.Pairwise (· < ·) s.terminalOrder ∧
    List.Pairwise (· < ·) s.queue ∧
    (∀ i ∈ s.queue, i < s.nextId) ∧
    (∀ a ∈ s.terminalOrder, ∀ b ∈ s.queue, a < b) := by
  obtain ⟨hpair, hbound⟩ := pipelineInv_reachable h
  rw [List.pairwise_append] at hpair
  obtain ⟨hterm, hqueue, hcross⟩ := hpair
  exact ⟨hterm.imp Nat.le_of_lt, hterm, hqueue,
         fun i hi => hbound i (List.mem_append.mpr (Or.inr hi)), hcross⟩

/-- Witness for claim C4: submit two operations, process both; the terminal
order is the submission order 1, 2. -/
theorem claimC4_fifo_terminal_order_witness :
    List.Pairwise (· ≤ ·)
      ({ queue := [], nextId := 3, terminalOrder := [1, 2] } : PipelineState).terminalOrder := by
  have h1 : PipelineReachable ({ queue := [1], nextId := 2, terminalOrder := [] } : PipelineState) :=
    PipelineReachable.step PipelineReachable.init (PipelineStep.submit pipelineInit)
  have h2 : PipelineReachable ({ queue := [1, 2], nextId := 3, terminalOrder := [] } : PipelineState) :=
    PipelineReachable.step h1 (PipelineStep.submit _)
  have h3 : PipelineReachable ({ queue := [2], nextId := 3, terminalOrder := [1] } : PipelineState) :=
    PipelineReachable.step h2 (PipelineStep.process _ 1 [2] rfl)
  have h4 : PipelineReachable ({ queue := [], nextId := 3, terminalOrder := [1, 2] } : PipelineState) :=
    PipelineReachable.step h3 (PipelineStep.process _ 2 [] rfl)
  exact (claimC4_fifo_terminal_order _ h4).1

end FileOperationQueue

namespace CacheManager

/-- The fields of a CacheEntry that the claims examine, from
include/core/CacheManager.hpp.  drivePath is the unique key of m_entries. -/
structure CacheEntry where
  drivePath : String
  fileSize : Nat
  lastAccessTime : Nat
  accessCount : Nat
  referenceCount : Nat
  pinned : Bool
  clientIds : List String
deriving DecidableEq, Repr

/-- The CacheManager state: the entries of the m_entries map in iteration
order, m_currentCacheSize (a uint64_t, tracked modulo 2 ^ 64) and
m_maxCacheSize. -/
structure CState where
  entries : List CacheEntry
  currentCacheSize : Nat
  maxCacheSize : Nat
deriving DecidableEq, Repr

/-- Lookup in the m_entries map (keys are unique, so the first match is the
entry for the key). -/
def findEntry (s : CState) (drivePath : String) : Option CacheEntry :=
  s.entries.find? (fun e => e.drivePath == drivePath)

/-- CacheManager::hasEnoughSpace (lines 480 to 482). -/
def hasEnoughSpace (s : CState) (requiredSize : Nat) : Bool :=
  decide (s.currentCacheSize + requiredSize ≤ s.maxCacheSize)

/-- CacheManager::uncacheFile (lines 108 to 151): fails for an unknown path,
a referenced entry, or a pinned entry; otherwise removes the entry (the map
erase removes exactly the found entry) and subtracts its size from
m_currentCacheSize with uint64 wrap-around. -/
def uncacheFile (s : CState) (drivePath : String) : Bool × CState :=
  match findEntry s drivePath with
  | none => (false, s)
  | some e =>
    if e.referenceCount > 0 then (false, s)
    else if e.pinned then (false, s)
    else
      (true,
        { s with entries := s.entries.eraseP (fun x => x.drivePath == drivePath)
                 currentCacheSize :=
                   (s.currentCacheSize +
                     (FileOperationQueue.U64 - e.fileSize % FileOperationQueue.U64)) %
                     FileOperationQueue.U64 })

theorem uncacheFile_noneEq (s : CState) (drivePath : String)
    (h : findEntry s drivePath = none) : uncacheFile s drivePath = (false, s) := by
  unfold uncacheFile
  rw [h]

theorem uncacheFile_someEq (s : CState) (drivePath : String) (e : CacheEntry)
    (h : findEntry s drivePath = some e) :
    uncacheFile s drivePath =
      if e.referenceCount > 0 then (false, s)
      else if e.pinned then (false, s)
      else
        (true,
          { s with entries := s.entries.eraseP (fun x => x.drivePath == drivePath)
                   currentCacheSize :=
                     (s.currentCacheSize +
                       (FileOperationQueue.U64 - e.fileSize % FileOperationQueue.U64)) %
                       FileOperationQueue.U64 }) := by
  unfold uncacheFile
  rw [h]

theorem erasePFindMem {α : Type} (p : α → Bool) (l : List α) (e : α)
    (h : l.find? p = some e) (a : α) (ha : a ∈ l) (hne : a ≠ e) : a ∈ l.eraseP p := by
  induction l with
  | nil => cases ha
  | cons x xs ih =>
    cases hx : p x with
    | true =>
      simp only [List.find?, hx] at h
      injection h with he
      simp only [List.eraseP, hx, cond_true]
      rcases List.mem_cons.mp ha with h1 | h1
      · exact absurd (h1.trans he) hne
      · exact h1
    | false =>
      simp only [List.find?, hx] at h
      simp only [List.eraseP, hx, cond_false]
      rcases List.mem_cons.mp ha with h1 | h1
      · rw [h1]
        exact List.mem_cons_self x _
      · exact List.mem_cons_of_mem x (ih h h1)

/-- uncacheFile never removes a referenced or pinned entry: the checks at
lines 119 and 125 reject the found entry, and only the found entry is ever
erased. -/
theorem uncache_keeps_protected (st : CState) (p : String) (a : CacheEntry)
    (ha : a ∈ st.entries) (hprot : 0 < a.referenceCount ∨ a.pinned = true) :
    a ∈ (uncacheFile st p).2.entries := by
  cases hf : findEntry st p with
  | none =>
    rw [uncacheFile_noneEq st p hf]
    exact ha
  | some e =>
    rw [uncacheFile_someEq st p e hf]
    by_cases hrc : e.referenceCount > 0
    · rw [if_pos hrc]
      exact ha
    · rw [if_neg hrc]
      by_cases hp : e.pinned = true
      · rw [if_pos hp]
        exact ha
      · rw [if_neg hp]
        have hne : a ≠ e := by
          intro hcon
          rcases hprot with hr | hpin
          · rw [hcon] at hr
            omega
          · rw [hcon] at hpin
            exact hp hpin
        exact erasePFindMem _ st.entries e hf a ha hne

/-- The candidate list of CacheManager::selectEvictionCandidates (lines 501
to 519): entries with referenceCount == 0 and not pinned, sorted by ascending
lastAccessTime.  std::sort leaves the relative order of entries with equal
lastAccessTime unspecified; this model fixes the stable order, which is one
of the permitted outcomes. -/
def sortedCandidates (s : CState) : List CacheEntry :=
  List.insertionSort (fun a b => a.lastAccessTime ≤ b.lastAccessTime)
    (s.entries.filter (fun e => e.referenceCount == 0 && !e.pinned))

/-- The selection loop of selectEvictionCandidates (lines 522 to 535): each
candidate is appended and its size added to the freed total, and the loop
stops as soon as the freed total reaches requiredSpace. -/
def selectGo (requiredSpace : Nat) : List CacheEntry → Nat → List CacheEntry
  | [], _ => []
  | e :: rest, freed =>
    e :: (if freed + e.fileSize ≥ requiredSpace then []
          else selectGo requiredSpace rest (freed + e.fileSize))

/-- CacheManager::selectEvictionCandidates (lines 501 to 538). -/
def selectEvictionCandidates (s : CState) (requiredSpace : Nat) : List String :=
  (selectGo requiredSpace (sortedCandidates s) 0).map (fun e => e.drivePath)

/-- Evicting a list of paths through uncacheFile, as the loop at lines 348 to
350 does. -/
def evictAll (s : CState) (paths : List String) : CState :=
  paths.foldl (fun st p => (uncacheFile st p).2) s

/-- CacheManager::evictLRU (lines 335 to 353): returns false immediately
when there are no candidates; otherwise uncaches every selected path and
returns hasEnoughSpace(requiredSpace) evaluated on the resulting state. -/
def evictLRU (s : CState) (requiredSpace : Nat) : Bool × CState :=
  if selectEvictionCandidates s requiredSpace = [] then (false, s)
  else
    (hasEnoughSpace (evictAll s (selectEvictionCandidates s requiredSpace)) requiredSpace,
     evictAll s (selectEvictionCandidates s requiredSpace))

/-- Sum of the file sizes of a list of entries. -/
def sumSizes (l : List CacheEntry) : Nat :=
  (l.map (fun e => e.fileSize)).sum

end CacheManager

namespace CacheManager

instance : IsTotal CacheEntry (fun a b => a.lastAccessTime ≤ b.lastAccessTime) :=
  ⟨fun a b => Nat.le_total a.lastAccessTime b.lastAccessTime⟩

instance : IsTrans CacheEntry (fun a b => a.lastAccessTime ≤ b.lastAccessTime) :=
  ⟨fun _ _ _ hab hbc => Nat.le_trans hab hbc⟩

/-- The selection loop returns a prefix of its input, stops exactly when the
freed total first reaches requiredSpace (or the candidates run out), and
never continues past the threshold. -/
theorem selectGo_spec (req : Nat) (l : List CacheEntry) (acc : Nat) :
    ∃ rest, l = selectGo req l acc ++ rest ∧
      (req ≤ acc + sumSizes (selectGo req l acc) ∨ rest = []) ∧
      (∀ n, n + 1 < (selectGo req l acc).length →
          acc + sumSizes ((selectGo req l acc).take (n + 1)) < req) := by
  induction l generalizing acc with
  | nil =>
    refine ⟨[], rfl, Or.inr rfl, ?_⟩
    intro n hn
    simp [selectGo] at hn
  | cons e rest0 ih =>
    by_cases hge : acc + e.fileSize ≥ req
    · have hsel : selectGo req (e :: rest0) acc = [e] := by
        unfold selectGo
        rw [if_pos hge]
      refine ⟨rest0, by rw [hsel]; rfl, Or.inl ?_, ?_⟩
      · rw [hsel]
        have hs : sumSizes [e] = e.fileSize := by simp [sumSizes]
        omega
      · intro n hn
        rw [hsel] at hn
        simp at hn
    · have hsel : selectGo req (e :: rest0) acc =
          e :: selectGo req rest0 (acc + e.fileSize) := by
        have hsel0 : selectGo req (e :: rest0) acc =
            e :: (if acc + e.fileSize ≥ req then []
                  else selectGo req rest0 (acc + e.fileSize)) := rfl
        rw [hsel0, if_neg hge]
      obtain ⟨rest, hdec, hstop, hmin⟩ := ih (acc + e.fileSize)
      refine ⟨rest, ?_, ?_, ?_⟩
      · rw [hsel, List.cons_append, ← hdec]
      · rw [hsel]
        cases hstop with
        | inl hle =>
          left
          have hs : sumSizes (e :: selectGo req rest0 (acc + e.fileSize)) =
              e.fileSize + sumSizes (selectGo req rest0 (acc + e.fileSize)) := by
            simp [sumSizes]
          omega
        | inr hre => exact Or.inr hre
      · intro n hn
        rw [hsel] at hn ⊢
        cases n with
        | zero =>
          have hs : sumSizes ((e :: selectGo req rest0 (acc + e.fileSize)).take (0 + 1)) =
              e.fileSize := by
            simp [sumSizes]
          rw [hs]
          omega
        | succ m =>
          have hlen : m + 1 < (selectGo req rest0 (acc + e.fileSize)).length := by
            simp only [List.length_cons] at hn
            omega
          have hmin' := hmin m hlen
          have hs : sumSizes ((e :: selectGo req rest0 (acc + e.fileSize)).take (m + 1 + 1)) =
              e.fileSize + sumSizes ((selectGo req rest0 (acc + e.fileSize)).take (m + 1)) := by
            simp [sumSizes, List.take_succ_cons]
          rw [hs]
          omega

/-- Every entry of the sorted candidate list is an unreferenced, unpinned
entry of the cache. -/
theorem sortedCandidates_mem (s : CState) (e : CacheEntry)
    (he : e ∈ sortedCandidates s) :
    e.referenceCount = 0 ∧ e.pinned = false ∧ e ∈ s.entries := by
  have hperm := List.perm_insertionSort
    (fun a b => a.lastAccessTime ≤ b.lastAccessTime)
    (s.entries.filter (fun x => x.referenceCount == 0 && !x.pinned))
  have hmem : e ∈ s.entries.filter (fun x => x.referenceCount == 0 && !x.pinned) :=
    hperm.mem_iff.mp he
  have h2 := List.mem_filter.mp hmem
  have hcond := h2.2
  rw [Bool.and_eq_true, beq_iff_eq, Bool.not_eq_true'] at hcond
  exact ⟨hcond.1, hcond.2, h2.1⟩

/-- Uncaching a list of paths preserves every referenced or pinned entry. -/
theorem evictAll_keeps_protected (paths : List String) (st : CState) (a : CacheEntry)
    (ha : a ∈ st.entries) (hprot : 0 < a.referenceCount ∨ a.pinned = true) :
    a ∈ (evictAll st paths).entries := by
  induction paths generalizing st with
  | nil => exact ha
  | cons p ps ih => exact ih _ (uncache_keeps_protected st p a ha hprot)

/-- A concrete empty cache with room to spare. -/
def exEvictState : CState :=
  { entries := [], currentCacheSize := 0, maxCacheSize := 100 }

/-- Claim C5 counterexample: on an empty cache with 100 bytes of room,
evictLRU(10) returns false because the candidate list is empty (lines 340 to
343), although space is already sufficient — contradicting the claim that it
returns false exactly when space is still insufficient afterwards. -/
theorem claimC5_counterexample :
    (evictLRU exEvictState 10).1 = false ∧
    hasEnoughSpace (evictLRU exEvictState 10).2 10 = true ∧
    (evictLRU exEvictState 10).2 = exEvictState := ⟨rfl, rfl, rfl⟩

/-- Claim C5 amended: selectEvictionCandidates selects only entries with
referenceCount = 0 and pinned = false; eviction never removes a referenced or
pinned entry; the selection takes an oldest-first (ascending lastAccessTime)
prefix of the candidate list and stops as soon as the freed space reaches
requiredSpace or the candidates are exhausted; evictLRU returns false without
evicting anything when there are no candidates — even if space is already
sufficient — and otherwise returns false exactly when space is still
insufficient after the evictions. -/
theorem claimC5_evictLRU_spec (s : CState) (requiredSpace : Nat) :
    (∀ e ∈ selectGo requiredSpace (sortedCandidates s) 0,
        e.referenceCount = 0 ∧ e.pinned = false ∧ e ∈ s.entries) ∧
    (∀ e ∈ s.entries, (0 < e.referenceCount ∨ e.pinned = true) →
        e ∈ (evictLRU s requiredSpace).2.entries) ∧
    List.Sorted (fun a b => a.lastAccessTime ≤ b.lastAccessTime) (sortedCandidates s) ∧
    (∃ rest, sortedCandidates s = selectGo requiredSpace (sortedCandidates s) 0 ++ rest ∧
        (requiredSpace ≤ sumSizes (selectGo requiredSpace (sortedCandidates s) 0) ∨
          rest = []) ∧
        (∀ n, n + 1 < (selectGo requiredSpace (sortedCandidates s) 0).length →
            sumSizes ((selectGo requiredSpace (sortedCandidates s) 0).take (n + 1)) <
              requiredSpace)) ∧
    (selectEvictionCandidates s requiredSpace = [] →
        evictLRU s requiredSpace = (false, s)) ∧
    (selectEvictionCandidates s requiredSpace ≠ [] →
        (evictLRU s requiredSpace).1 =
          hasEnoughSpace (evictLRU s requiredSpace).2 requiredSpace) := by
  obtain ⟨rest, hdec, hstop, hmin⟩ := selectGo_spec requiredSpace (sortedCandidates s) 0
  refine ⟨?_, ?_, ?_, ?_, ?_, ?_⟩
  · intro e he
    have hmem : e ∈ sortedCandidates s := by
      rw [hdec]
      exact List.mem_append.mpr (Or.inl he)
    exact sortedCandidates_mem s e hmem
  · intro e he hprot
    unfold evictLRU
    by_cases hc : selectEvictionCandidates s requiredSpace = []
    · rw [if_pos hc]
      exact he
    · rw [if_neg hc]
      exact evictAll_keeps_protected (selectEvictionCandidates s requiredSpace) s e he hprot
  · exact List.sorted_insertionSort _ _
  · refine ⟨rest, hdec, ?_, ?_⟩
    · cases hstop with
      | inl h => exact Or.inl (by omega)
      | inr h => exact Or.inr h
    · intro n hn
      have := hmin n hn
      omega
  · intro hempty
    unfold evictLRU
    rw [if_pos hempty]
  · intro hne
    unfold evictLRU
    rw [if_neg hne]

/-- Witness for claim C5 amended: a cache holding one stale unreferenced
30-byte entry under a 50-byte cap; evictLRU(40) evicts it and reports the
resulting space check. -/
def exEvictState2 : CState :=
  { entries := [{ drivePath := "a.bin", fileSize := 30, lastAccessTime := 5,
                  accessCount := 1, referenceCount := 0, pinned := false,
                  clientIds := [] }]
    currentCacheSize := 30, maxCacheSize := 50 }

theorem claimC5_evictLRU_spec_witness :
    (evictLRU exEvictState2 40).1 = hasEnoughSpace (evictLRU exEvictState2 40).2 40 :=
  (claimC5_evictLRU_spec exEvictState2 40).2.2.2.2.2 (by decide)

end CacheManager

namespace CacheManager

/-- The update CacheManager::acquireReference (lines 221 to 242) performs on
the entry for drivePath: referenceCount is always incremented (line 230);
clientId is appended to clientIds only when absent (lines 233 to 235); then
updateAccessTime (lines 484 to 490) refreshes lastAccessTime and increments
accessCount. -/
def acquireApply (e : CacheEntry) (clientId : String) (now : Nat) : CacheEntry :=
  { e with referenceCount := e.referenceCount + 1
           clientIds := if clientId ∈ e.clientIds then e.clientIds
                        else e.clientIds ++ [clientId]
           lastAccessTime := now
           accessCount := e.accessCount + 1 }

/-- The update CacheManager::releaseReference (lines 244 to 266) performs on
the entry: referenceCount is decremented when positive (lines 253 to 255) and
the first occurrence of clientId is removed from clientIds (lines 258 to
261). -/
def releaseApply (e : CacheEntry) (clientId : String) : CacheEntry :=
  { e with referenceCount := if e.referenceCount > 0 then e.referenceCount - 1
                             else e.referenceCount
           clientIds := e.clientIds.erase clientId }

/-- CacheManager::acquireReference (lines 221 to 242): false for an unknown
path, otherwise applies acquireApply to the entry for the path (drivePath is
the unique map key, so exactly that entry changes). -/
def acquireReference (s : CState) (drivePath clientId : String) (now : Nat) :
    Bool × CState :=
  match findEntry s drivePath with
  | none => (false, s)
  | some _ =>
    (true, { s with entries := s.entries.map (fun e =>
        if e.drivePath == drivePath then acquireApply e clientId now else e) })

/-- CacheManager::releaseReference (lines 244 to 266). -/
def releaseReference (s : CState) (drivePath clientId : String) : Bool × CState :=
  match findEntry s drivePath with
  | none => (false, s)
  | some _ =>
    (true, { s with entries := s.entries.map (fun e =>
        if e.drivePath == drivePath then releaseApply e clientId else e) })

/-- CacheManager::getReferenceCount (lines 268 to 277). -/
def getReferenceCount (s : CState) (drivePath : String) : Nat :=
  match findEntry s drivePath with
  | none => 0
  | some e => e.referenceCount

theorem acquireReference_someEq (s : CState) (drivePath clientId : String) (now : Nat)
    (e : CacheEntry) (h : findEntry s drivePath = some e) :
    acquireReference s drivePath clientId now =
      (true, { s with entries := s.entries.map (fun x =>
          if x.drivePath == drivePath then acquireApply x clientId now else x) }) := by
  unfold acquireReference
  rw [h]

theorem findMapUpdate (l : List CacheEntry) (p : String) (f : CacheEntry → CacheEntry)
    (hf : ∀ e, (f e).drivePath = e.drivePath) :
    (l.map (fun e => if e.drivePath == p then f e else e)).find?
        (fun e => e.drivePath == p) =
      (l.find? (fun e => e.drivePath == p)).map f := by
  induction l with
  | nil => rfl
  | cons x xs ih =>
    cases hx : (x.drivePath == p) with
    | true =>
      have hfx : ((f x).drivePath == p) = true := by
        rw [hf x]
        exact hx
      rw [List.map_cons, if_pos hx]
      simp only [List.find?, hfx, hx]
      rfl
    | false =>
      have hnx : ¬ ((x.drivePath == p) = true) := by
        rw [hx]
        exact Bool.noConfusion
      rw [List.map_cons, if_neg hnx]
      simp only [List.find?, hx]
      exact ih

/-- A cache holding one unreferenced entry with no holders. -/
def exRefEntry : CacheEntry :=
  { drivePath := "f", fileSize := 1, lastAccessTime := 0, accessCount := 0,
    referenceCount := 0, pinned := false, clientIds := [] }

def exRefState : CState :=
  { entries := [exRefEntry], currentCacheSize := 1, maxCacheSize := 100 }

/-- Claim C8 counterexample: acquiring twice with the same clientId is not
idempotent — referenceCount goes to 2 instead of staying at 1, because line
230 increments it unconditionally — and a matching release does not restore
the exact pre-acquisition state, because lastAccessTime and accessCount keep
their refreshed values. -/
theorem claimC8_counterexample :
    getReferenceCount ((acquireReference exRefState "f" "c" 5).2) "f" = 1 ∧
    getReferenceCount
      ((acquireReference ((acquireReference exRefState "f" "c" 5).2) "f" "c" 6).2) "f" = 2 ∧
    ((acquireReference ((acquireReference exRefState "f" "c" 5).2) "f" "c" 6).2 ≠
      (acquireReference exRefState "f" "c" 5).2) ∧
    ((releaseReference ((acquireReference exRefState "f" "c" 5).2) "f" "c").2 ≠
      exRefState) := by
  refine ⟨rfl, rfl, by decide, by decide⟩

/-- Claim C8 amended: acquireReference / releaseReference keep a per-entry
set of holder ids whose add and remove are idempotent, and acquiring
refreshes the entry recency (lastAccessTime := now), but referenceCount is a
plain counter incremented by every acquire — acquiring twice with the same
clientId leaves the holder set as acquiring once yet referenceCount two
higher than before; a single matching release by a client that was not
already a holder restores referenceCount and the holder set (though not the
recency fields). -/
theorem claimC8_reference_spec (s : CState) (drivePath clientId : String)
    (now later : Nat) (e : CacheEntry) (he : findEntry s drivePath = some e) :
    findEntry (acquireReference s drivePath clientId now).2 drivePath =
      some (acquireApply e clientId now) ∧
    (acquireApply (acquireApply e clientId now) clientId later).clientIds =
      (acquireApply e clientId now).clientIds ∧
    (acquireApply e clientId now).referenceCount = e.referenceCount + 1 ∧
    (acquireApply (acquireApply e clientId now) clientId later).referenceCount =
      e.referenceCount + 2 ∧
    (clientId ∉ e.clientIds →
      (releaseApply (acquireApply e clientId now) clientId).referenceCount =
          e.referenceCount ∧
      (releaseApply (acquireApply e clientId now) clientId).clientIds = e.clientIds) ∧
    (acquireApply e clientId now).lastAccessTime = now := by
  have hmemAfter : clientId ∈ (acquireApply e clientId now).clientIds := by
    show clientId ∈ (if clientId ∈ e.clientIds then e.clientIds else e.clientIds ++ [clientId])
    by_cases hc : clientId ∈ e.clientIds
    · rw [if_pos hc]
      exact hc
    · rw [if_neg hc]
      exact List.mem_append.mpr (Or.inr (List.mem_singleton.mpr rfl))
  refine ⟨?_, ?_, rfl, rfl, ?_, rfl⟩
  · rw [acquireReference_someEq s drivePath clientId now e he]
    show (s.entries.map (fun x =>
        if x.drivePath == drivePath then acquireApply x clientId now else x)).find?
        (fun x => x.drivePath == drivePath) = some (acquireApply e clientId now)
    rw [findMapUpdate s.entries drivePath (fun x => acquireApply x clientId now)
        (fun _ => rfl)]
    have he' : s.entries.find? (fun x => x.drivePath == drivePath) = some e := he
    rw [he']
    rfl
  · show (if clientId ∈ (acquireApply e clientId now).clientIds
          then (acquireApply e clientId now).clientIds
          else (acquireApply e clientId now).clientIds ++ [clientId]) =
        (acquireApply e clientId now).clientIds
    rw [if_pos hmemAfter]
  · intro hnot
    constructor
    · show (if e.referenceCount + 1 > 0 then e.referenceCount + 1 - 1
            else e.referenceCount + 1) = e.referenceCount
      rw [if_pos (Nat.succ_pos e.referenceCount)]
      omega
    · show ((if clientId ∈ e.clientIds then e.clientIds
             else e.clientIds ++ [clientId]).erase clientId) = e.clientIds
      rw [if_neg hnot, List.erase_append_right _ hnot, List.erase_cons_head,
          List.append_nil]

/-- Witness for claim C8 amended at the one-entry cache: a fresh acquire
followed by a matching release restores the reference count. -/
theorem claimC8_reference_spec_witness :
    (releaseApply (acquireApply exRefEntry "c" 5) "c").referenceCount =
      exRefEntry.referenceCount :=
  ((claimC8_reference_spec exRefState "f" "c" 5 6 exRefEntry rfl).2.2.2.2.1
    (by decide)).1

end CacheManager

namespace WriteQueueManager

/-- The WriteRequest fields claim C10 examines; priority is the numeric value
of WritePriority (LOW = 0, NORMAL = 1, HIGH = 2, CRITICAL = 3), and
submittedTime the system-clock stamp taken under the lock in submitWrite. -/
structure WriteRequest where
  id : Nat
  clientId : Nat
  priority : Nat
  submittedTime : Nat
deriving DecidableEq, Repr

/-- WriteRequestComparator (WriteQueueManager.hpp lines 38 to 48): a is
ranked below b when its priority value is smaller, or, at equal priority,
when it was submitted later. -/
def writeRequestLess (a b : WriteRequest) : Bool :=
  if a.priority == b.priority then decide (b.submittedTime < a.submittedTime)
  else decide (a.priority < b.priority)

/-- a pops (and is promoted) before b: higher priority first, then earlier
submission time. -/
def StrictBefore (a b : WriteRequest) : Prop :=
  b.priority < a.priority ∨ (a.priority = b.priority ∧ a.submittedTime < b.submittedTime)

theorem strictBefore_trans {a b c : WriteRequest}
    (h1 : StrictBefore a b) (h2 : StrictBefore b c) : StrictBefore a c := by
  unfold StrictBefore at h1 h2 ⊢
  rcases h1 with h1 | ⟨h1e, h1t⟩ <;> rcases h2 with h2 | ⟨h2e, h2t⟩
  · left
    omega
  · left
    omega
  · left
    omega
  · right
    exact ⟨h1e.trans h2e, Nat.lt_trans h1t h2t⟩

theorem writeRequestLess_iff (a b : WriteRequest) :
    writeRequestLess a b = true ↔ StrictBefore b a := by
  unfold writeRequestLess StrictBefore
  by_cases hp : a.priority = b.priority
  · rw [if_pos (beq_iff_eq.mpr hp), decide_eq_true_eq]
    constructor
    · intro ht
      right
      exact ⟨hp.symm, ht⟩
    · rintro (hlt | ⟨_, ht⟩)
      · omega
      · exact ht
  · rw [if_neg (fun hcon => hp (beq_iff_eq.mp hcon)), decide_eq_true_eq]
    constructor
    · intro h
      left
      exact h
    · rintro (h | ⟨he, _⟩)
      · exact h
      · exact absurd he.symm hp

theorem strictBefore_total (a b : WriteRequest) (hne : a.submittedTime ≠ b.submittedTime) :
    StrictBefore a b ∨ StrictBefore b a := by
  unfold StrictBefore
  by_cases hp : a.priority = b.priority
  · rcases Nat.lt_or_ge a.submittedTime b.submittedTime with h | h
    · left
      right
      exact ⟨hp, h⟩
    · right
      right
      refine ⟨hp.symm, ?_⟩
      omega
  · rcases Nat.lt_or_ge a.priority b.priority with h | h
    · right
      left
      exact h
    · left
      left
      omega

/-- Insertion into the pending queue.  With distinct submission times within
each priority tier the comparator is a strict total order, so any correct
binary heap — std::priority_queue in particular — pops elements in exactly
comparator order; the heap is therefore modelled as the list in pop order,
and insertion places the new request behind every element that outranks
it. -/
def heapInsert (r : WriteRequest) : List WriteRequest → List WriteRequest
  | [] => [r]
  | x :: xs => if writeRequestLess r x then x :: heapInsert r xs else r :: x :: xs

theorem heapInsert_split (r : WriteRequest) (l : List WriteRequest) :
    ∃ l₁ l₂, l = l₁ ++ l₂ ∧ heapInsert r l = l₁ ++ r :: l₂ ∧
      (∀ x ∈ l₁, writeRequestLess r x = true) ∧
      (l₂ = [] ∨ ∃ x₀ rest, l₂ = x₀ :: rest ∧ writeRequestLess r x₀ = false) := by
  induction l with
  | nil =>
    exact ⟨[], [], rfl, rfl, fun x hx => absurd hx (List.not_mem_nil x), Or.inl rfl⟩
  | cons x xs ih =>
    by_cases hx : writeRequestLess r x = true
    · obtain ⟨l₁, l₂, hdec, hins, hall, hend⟩ := ih
      refine ⟨x :: l₁, l₂, by rw [List.cons_append, ← hdec], ?_, ?_, hend⟩
      · show (if writeRequestLess r x then x :: heapInsert r xs else r :: x :: xs) =
            x :: l₁ ++ r :: l₂
        rw [if_pos hx, hins]
        rfl
      · intro y hy
        rcases List.mem_cons.mp hy with h1 | h1
        · rw [h1]
          exact hx
        · exact hall y h1
    · have hfalse : writeRequestLess r x = false := by
        cases hb : writeRequestLess r x with
        | false => rfl
        | true => exact absurd hb hx
      refine ⟨[], x :: xs, rfl, ?_,
              fun y hy => absurd hy (List.not_mem_nil y), Or.inr ⟨x, xs, rfl, hfalse⟩⟩
      show (if writeRequestLess r x then x :: heapInsert r xs else r :: x :: xs) =
          [] ++ r :: x :: xs
      rw [if_neg hx]
      rfl

end WriteQueueManager

namespace WriteQueueManager

/-- Result of one run of the scheduler loop. -/
structure LoopState where
  pendingQueue : List WriteRequest
  currentBatch : List WriteRequest
  promoted : List WriteRequest
  clientActiveWrites : List (Nat × Nat)
deriving DecidableEq, Repr

def lookupNat (m : List (Nat × Nat)) (k : Nat) : Option Nat :=
  (m.find? (fun q => q.1 == k)).map (fun q => q.2)

/-- WriteQueueManager::canQueueWrite (lines 399 to 409). -/
def canQueueWrite (limits active : List (Nat × Nat)) (clientId : Nat) : Bool :=
  match lookupNat limits clientId with
  | none => true
  | some lim => decide ((lookupNat active clientId).getD 0 < lim)

/-- The m_clientActiveWrites increment performed by queueWriteRequest
(line 387); operator square-bracket inserts 0 first when the key is new. -/
def bumpActive (m : List (Nat × Nat)) (k : Nat) : List (Nat × Nat) :=
  match lookupNat m k with
  | none => m ++ [(k, 1)]
  | some n => m.map (fun q => if q.1 == k then (q.1, n + 1) else q)

/-- Queueing a whole batch increments each request's client in order, as the
loop in flushBatch (lines 258 to 260) does through queueWriteRequest. -/
def bumpAll (active : List (Nat × Nat)) (rs : List WriteRequest) : List (Nat × Nat) :=
  rs.foldl (fun m r => bumpActive m r.clientId) active

/-- The guarded decrement of onOperationCompleted (lines 422 to 424). -/
def decActive (m : List (Nat × Nat)) (k : Nat) : List (Nat × Nat) :=
  match lookupNat m k with
  | none => m ++ [(k, 0)]
  | some n =>
    if n > 0 then m.map (fun q => if q.1 == k then (q.1, n - 1) else q) else m

/-- WriteQueueManager::processPendingWrites (lines 331 to 363).  The loop
peeks the top of the priority queue; stops when the client is throttled;
otherwise pops it and either appends it to the current batch (batching
enabled and priority below CRITICAL = 3), flushing the batch into the
pipeline in order when it reaches batchMaxFiles (lines 352 to 354 and
flushBatch lines 249 to 265), or queues it into the pipeline at once through
queueWriteRequest (lines 359 to 361).  promoted records the pipeline
submissions in order. -/
def processLoop (limits : List (Nat × Nat)) (batchingEnabled : Bool) (batchMaxFiles : Nat) :
    List WriteRequest → List WriteRequest → List WriteRequest → List (Nat × Nat) → LoopState
  | [], batch, promoted, active =>
    { pendingQueue := [], currentBatch := batch, promoted := promoted,
      clientActiveWrites := active }
  | r :: rest, batch, promoted, active =>
    if canQueueWrite limits active r.clientId then
      if batchingEnabled && !(r.priority == 3) then
        if batchMaxFiles ≤ (batch ++ [r]).length then
          processLoop limits batchingEnabled batchMaxFiles rest []
            (promoted ++ (batch ++ [r])) (bumpAll active (batch ++ [r]))
        else
          processLoop limits batchingEnabled batchMaxFiles rest (batch ++ [r]) promoted active
      else
        processLoop limits batchingEnabled batchMaxFiles rest batch (promoted ++ [r])
          (bumpActive active r.clientId)
    else
      { pendingQueue := r :: rest, currentBatch := batch, promoted := promoted,
        clientActiveWrites := active }

/-- The properties of (pending, batch, promoted) that the scheduler loop
preserves: the pending queue is in pop order; all stamps are in the past;
within every priority tier, the concatenation promoted-batch-pending is in
ascending submission order; the batch is empty when batching is off and
never holds a CRITICAL request. -/
def LoopInv (clock : Nat) (batchingEnabled : Bool)
    (q batch promoted : List WriteRequest) : Prop :=
  List.Pairwise StrictBefore q ∧
  (∀ r ∈ q, r.submittedTime ≤ clock) ∧
  (∀ r ∈ batch, r.submittedTime ≤ clock) ∧
  (∀ r ∈ promoted, r.submittedTime ≤ clock) ∧
  (∀ p : Nat, List.Pairwise (fun a b => a.submittedTime < b.submittedTime)
      ((promoted ++ batch ++ q).filter (fun x => x.priority == p))) ∧
  (batchingEnabled = false → batch = []) ∧
  (∀ r ∈ batch, r.priority ≠ 3)

theorem filter_promote_direct (P B rest : List WriteRequest) (r : WriteRequest) (p : Nat)
    (hno : (r.priority == p) = true → B.filter (fun x => x.priority == p) = []) :
    ((P ++ [r]) ++ B ++ rest).filter (fun x => x.priority == p) =
      (P ++ B ++ (r :: rest)).filter (fun x => x.priority == p) := by
  simp only [List.filter_append, List.filter_cons]
  cases hr : (r.priority == p) with
  | true =>
    rw [hno hr]
    simp
  | false =>
    simp

theorem processLoop_inv (limits : List (Nat × Nat)) (batchingEnabled : Bool)
    (batchMaxFiles clock : Nat) :
    ∀ (q batch promoted : List WriteRequest) (active : List (Nat × Nat)),
    LoopInv clock batchingEnabled q batch promoted →
    LoopInv clock batchingEnabled
      (processLoop limits batchingEnabled batchMaxFiles q batch promoted active).pendingQueue
      (processLoop limits batchingEnabled batchMaxFiles q batch promoted active).currentBatch
      (processLoop limits batchingEnabled batchMaxFiles q batch promoted active).promoted := by
  intro q
  induction q with
  | nil => intro batch promoted active h; exact h
  | cons r rest ih =>
    intro batch promoted active h
    obtain ⟨hsort, hqb, hbb, hpb, htier, hoff, hncrit⟩ := h
    have hsort' : List.Pairwise StrictBefore rest := (List.pairwise_cons.mp hsort).2
    have hqb' : ∀ x ∈ rest, x.submittedTime ≤ clock :=
      fun x hx => hqb x (List.mem_cons_of_mem r hx)
    have hrb : r.submittedTime ≤ clock := hqb r (List.mem_cons_self r rest)
    show LoopInv clock batchingEnabled _ _ _
    unfold processLoop
    by_cases hcq : canQueueWrite limits active r.clientId = true
    · rw [if_pos hcq]
      by_cases hbatch : (batchingEnabled && !(r.priority == 3)) = true
      · rw [if_pos hbatch]
        have hbatch2 := hbatch
        rw [Bool.and_eq_true] at hbatch2
        have hbe : batchingEnabled = true := hbatch2.1
        have hcrit : r.priority ≠ 3 := by
          have h3 := hbatch2.2
          rw [Bool.not_eq_true'] at h3
          exact fun hcon => by
            rw [hcon] at h3
            exact Bool.noConfusion h3
        by_cases hflush : batchMaxFiles ≤ (batch ++ [r]).length
        · rw [if_pos hflush]
          apply ih []
          refine ⟨hsort', hqb', ?_, ?_, ?_, fun _ => rfl, ?_⟩
          · intro x hx
            cases hx
          · intro x hx
            rcases List.mem_append.mp hx with h1 | h1
            · exact hpb x h1
            · rcases List.mem_append.mp h1 with h2 | h2
              · exact hbb x h2
              · rw [List.mem_singleton.mp h2]
                exact hrb
          · intro p
            have hre : (promoted ++ (batch ++ [r])) ++ [] ++ rest =
                promoted ++ batch ++ (r :: rest) := by
              simp
            rw [hre]
            exact htier p
          · intro x hx
            cases hx
        · rw [if_neg hflush]
          apply ih (batch ++ [r])
          refine ⟨hsort', hqb', ?_, hpb, ?_, ?_, ?_⟩
          · intro x hx
            rcases List.mem_append.mp hx with h1 | h1
            · exact hbb x h1
            · rw [List.mem_singleton.mp h1]
              exact hrb
          · intro p
            have hre : promoted ++ (batch ++ [r]) ++ rest =
                promoted ++ batch ++ (r :: rest) := by
              simp
            rw [hre]
            exact htier p
          · intro hcon
            rw [hcon] at hbe
            exact Bool.noConfusion hbe
          · intro x hx
            rcases List.mem_append.mp hx with h1 | h1
            · exact hncrit x h1
            · rw [List.mem_singleton.mp h1]
              exact hcrit
      · rw [if_neg hbatch]
        apply ih batch
        refine ⟨hsort', hqb', hbb, ?_, ?_, hoff, hncrit⟩
        · intro x hx
          rcases List.mem_append.mp hx with h1 | h1
          · exact hpb x h1
          · rw [List.mem_singleton.mp h1]
            exact hrb
        · intro p
          rw [filter_promote_direct promoted batch rest r p ?_]
          · exact htier p
          · intro hrp
            by_cases hbe : batchingEnabled = true
            · have hcrit : r.priority = 3 := by
                by_contra hcon
                apply hbatch
                rw [Bool.and_eq_true, hbe]
                refine ⟨rfl, ?_⟩
                rw [Bool.not_eq_true']
                cases hb3 : (r.priority == 3) with
                | false => rfl
                | true => exact absurd (beq_iff_eq.mp hb3) hcon
              rw [List.filter_eq_nil_iff]
              intro x hxB
              have hx3 : x.priority ≠ 3 := hncrit x hxB
              intro hxp
              have hxpp : x.priority = p := beq_iff_eq.mp hxp
              have hrpp : r.priority = p := beq_iff_eq.mp hrp
              exact hx3 (by omega)
            · have hBnil : batch = [] := hoff (by
                cases hb : batchingEnabled with
                | false => rfl
                | true => exact absurd hb hbe)
              rw [hBnil]
              rfl
    · rw [if_neg hcq]
      exact ⟨hsort, hqb, hbb, hpb, htier, hoff, hncrit⟩

end WriteQueueManager

namespace WriteQueueManager

theorem heapInsert_preserves (r : WriteRequest) (Q : List WriteRequest) (clock : Nat)
    (hsort : List.Pairwise StrictBefore Q)
    (hb : ∀ x ∈ Q, x.submittedTime ≤ clock)
    (ht : clock < r.submittedTime) :
    List.Pairwise StrictBefore (heapInsert r Q) ∧
    (∀ p, (heapInsert r Q).filter (fun x => x.priority == p) =
      if (r.priority == p) = true
      then Q.filter (fun x => x.priority == p) ++ [r]
      else Q.filter (fun x => x.priority == p)) ∧
    (∀ x ∈ heapInsert r Q, x = r ∨ x ∈ Q) := by
  obtain ⟨l₁, l₂, hdec, hins, hall, hend⟩ := heapInsert_split r Q
  rw [hdec] at hsort hb
  rw [List.pairwise_append] at hsort
  obtain ⟨hp1, hp2, hcross⟩ := hsort
  have hSBr : ∀ y ∈ l₂, StrictBefore r y := by
    cases hend with
    | inl hnil =>
      rw [hnil]
      intro y hy
      cases hy
    | inr hx =>
      obtain ⟨x₀, rest, hl₂, hless0⟩ := hx
      rw [hl₂]
      rw [hl₂] at hp2 hb
      have hx₀b : x₀.submittedTime ≤ clock :=
        hb x₀ (List.mem_append.mpr (Or.inr (List.mem_cons_self x₀ rest)))
      have hne : r.submittedTime ≠ x₀.submittedTime := by omega
      have hSB0 : StrictBefore r x₀ := by
        rcases strictBefore_total r x₀ hne with h | h
        · exact h
        · exfalso
          have := (writeRequestLess_iff r x₀).mpr h
          rw [hless0] at this
          exact Bool.noConfusion this
      intro y hy
      rcases List.mem_cons.mp hy with h1 | h1
      · rw [h1]
        exact hSB0
      · exact strictBefore_trans hSB0 ((List.pairwise_cons.mp hp2).1 y h1)
  have hfl₂ : ∀ p, (r.priority == p) = true →
      l₂.filter (fun x => x.priority == p) = [] := by
    intro p hrp
    rw [List.filter_eq_nil_iff]
    intro y hy hyp
    have hSB := hSBr y hy
    have hyb : y.submittedTime ≤ clock :=
      hb y (List.mem_append.mpr (Or.inr hy))
    unfold StrictBefore at hSB
    have hyeq : y.priority = p := beq_iff_eq.mp hyp
    have hreq : r.priority = p := beq_iff_eq.mp hrp
    rcases hSB with h | ⟨_, h⟩
    · omega
    · omega
  refine ⟨?_, ?_, ?_⟩
  · rw [hins, List.pairwise_append]
    refine ⟨hp1, ?_, ?_⟩
    · rw [List.pairwise_cons]
      exact ⟨hSBr, hp2⟩
    · intro a ha b hbmem
      rcases List.mem_cons.mp hbmem with h1 | h1
      · rw [h1]
        exact (writeRequestLess_iff r a).mp (hall a ha)
      · exact hcross a ha b h1
  · intro p
    rw [hins, hdec, List.filter_append, List.filter_append, List.filter_cons]
    cases hrp : (r.priority == p) with
    | true => simp [hfl₂ p hrp]
    | false => simp
  · intro x hx
    rw [hins] at hx
    rcases List.mem_append.mp hx with h1 | h1
    · right
      rw [hdec]
      exact List.mem_append.mpr (Or.inl h1)
    · rcases List.mem_cons.mp h1 with h2 | h2
      · left
        exact h2
      · right
        rw [hdec]
        exact List.mem_append.mpr (Or.inr h2)

end WriteQueueManager

namespace WriteQueueManager

/-- The WriteQueueManager state visible to claim C10: the pending priority
queue in pop order, the current batch, the ordered record of pipeline
submissions (queueWriteRequest calls), the per-client active-write counters
and limits, the batching configuration, the request-id counter, and the
latest system-clock reading.  Submission time stamps are taken from a
strictly increasing clock — successive submitWrite calls observe distinct
system-clock values in this model. -/
structure SState where
  pendingQueue : List WriteRequest
  currentBatch : List WriteRequest
  promoted : List WriteRequest
  clientActiveWrites : List (Nat × Nat)
  clientWriteLimits : List (Nat × Nat)
  batchingEnabled : Bool
  batchMaxFiles : Nat
  nextRequestId : Nat
  clock : Nat
deriving DecidableEq, Repr

/-- WriteQueueManager::submitWrite (lines 75 to 108): a fresh id, the current
clock as submittedTime, and a push into the priority queue. -/
def submitWrite (s : SState) (clientId priority t : Nat) : SState :=
  { s with
    pendingQueue := heapInsert
      { id := s.nextRequestId, clientId := clientId, priority := priority,
        submittedTime := t }
      s.pendingQueue
    nextRequestId := s.nextRequestId + 1
    clock := t }

/-- One pass of processPendingWrites, lifted to the manager state. -/
def processPendingWrites (s : SState) : SState :=
  { s with
    pendingQueue := (processLoop s.clientWriteLimits s.batchingEnabled s.batchMaxFiles
      s.pendingQueue s.currentBatch s.promoted s.clientActiveWrites).pendingQueue
    currentBatch := (processLoop s.clientWriteLimits s.batchingEnabled s.batchMaxFiles
      s.pendingQueue s.currentBatch s.promoted s.clientActiveWrites).currentBatch
    promoted := (processLoop s.clientWriteLimits s.batchingEnabled s.batchMaxFiles
      s.pendingQueue s.currentBatch s.promoted s.clientActiveWrites).promoted
    clientActiveWrites := (processLoop s.clientWriteLimits s.batchingEnabled s.batchMaxFiles
      s.pendingQueue s.currentBatch s.promoted s.clientActiveWrites).clientActiveWrites }

/-- WriteQueueManager::flushBatch (lines 249 to 265): queues the whole batch
into the pipeline in order; invoked by the scheduler loop on batch timeout
(lines 309 to 317) or manually. -/
def flushBatch (s : SState) : SState :=
  { s with currentBatch := []
           promoted := s.promoted ++ s.currentBatch
           clientActiveWrites := bumpAll s.clientActiveWrites s.currentBatch }

/-- State set up by the WriteQueueManager constructor (batching configuration
left as a parameter; the constructor default is disabled with batch size
10). -/
def schedulerInit (batchingEnabled : Bool) (batchMaxFiles : Nat) : SState :=
  { pendingQueue := [], currentBatch := [], promoted := [],
    clientActiveWrites := [], clientWriteLimits := [],
    batchingEnabled := batchingEnabled, batchMaxFiles := batchMaxFiles,
    nextRequestId := 1, clock := 0 }

/-- The submitWrite calls and scheduler steps of claim C10, plus the
operation-completion decrement and per-client limit setting that the
throttling consults. -/
inductive SStep : SState → SState → Prop
  | submit (s : SState) (clientId priority t : Nat) (ht : s.clock < t) :
      SStep s (submitWrite s clientId priority t)
  | schedule (s : SState) : SStep s (processPendingWrites s)
  | flush (s : SState) : SStep s (flushBatch s)
  | complete (s : SState) (clientId : Nat) :
      SStep s { s with clientActiveWrites := decActive s.clientActiveWrites clientId }
  | setLimit (s : SState) (clientId maxConcurrent : Nat) :
      SStep s { s with clientWriteLimits :=
        (s.clientWriteLimits.filter (fun q => q.1 != clientId)) ++
          [(clientId, maxConcurrent)] }

inductive SReachable : SState → Prop
  | init (batchingEnabled : Bool) (batchMaxFiles : Nat) :
      SReachable (schedulerInit batchingEnabled batchMaxFiles)
  | step {s s' : SState} : SReachable s → SStep s s' → SReachable s'

/-- The manager invariant is the loop invariant at the current clock. -/
def SInv (s : SState) : Prop :=
  LoopInv s.clock s.batchingEnabled s.pendingQueue s.currentBatch s.promoted

theorem submit_preserves (clock : Nat) (be : Bool) (Q B P : List WriteRequest)
    (r : WriteRequest) (hinv : LoopInv clock be Q B P) (ht : clock < r.submittedTime) :
    LoopInv r.submittedTime be (heapInsert r Q) B P := by
  obtain ⟨hsort, hqb, hbb, hpb, htier, hoff, hncrit⟩ := hinv
  obtain ⟨hins, hfilter, hmem⟩ := heapInsert_preserves r Q clock hsort hqb ht
  refine ⟨hins, ?_, ?_, ?_, ?_, hoff, hncrit⟩
  · intro x hx
    rcases hmem x hx with h1 | h1
    · rw [h1]
    · exact Nat.le_trans (hqb x h1) (Nat.le_of_lt ht)
  · intro x hx
    exact Nat.le_trans (hbb x hx) (Nat.le_of_lt ht)
  · intro x hx
    exact Nat.le_trans (hpb x hx) (Nat.le_of_lt ht)
  · intro p
    rw [List.filter_append, List.filter_append, hfilter p]
    cases hrp : (r.priority == p) with
    | true =>
      rw [if_pos rfl]
      have hold := htier p
      rw [List.filter_append, List.filter_append] at hold
      rw [← List.append_assoc]
      rw [List.pairwise_append]
      refine ⟨hold, List.pairwise_singleton _ _, ?_⟩
      intro a ha b hbmem
      rw [List.mem_singleton.mp hbmem]
      show a.submittedTime < r.submittedTime
      rcases List.mem_append.mp ha with h1 | h1
      · rcases List.mem_append.mp h1 with h2 | h2
        · have := hpb a (List.mem_of_mem_filter h2)
          omega
        · have := hbb a (List.mem_of_mem_filter h2)
          omega
      · have := hqb a (List.mem_of_mem_filter h1)
        omega
    | false =>
      rw [if_neg (fun hcon => Bool.noConfusion hcon)]
      have hold := htier p
      rw [List.filter_append, List.filter_append] at hold
      exact hold

theorem sinv_init (batchingEnabled : Bool) (batchMaxFiles : Nat) :
    SInv (schedulerInit batchingEnabled batchMaxFiles) := by
  refine ⟨List.Pairwise.nil, ?_, ?_, ?_, ?_, fun _ => rfl, ?_⟩
  · intro x hx
    cases hx
  · intro x hx
    cases hx
  · intro x hx
    cases hx
  · intro p
    exact List.Pairwise.nil
  · intro x hx
    cases hx

theorem sinv_step {s s' : SState} (hs : SInv s) (hstep : SStep s s') : SInv s' := by
  obtain ⟨hsort, hqb, hbb, hpb, htier, hoff, hncrit⟩ := hs
  cases hstep with
  | submit clientId priority t ht =>
    exact submit_preserves s.clock s.batchingEnabled s.pendingQueue s.currentBatch
      s.promoted
      { id := s.nextRequestId, clientId := clientId, priority := priority,
        submittedTime := t }
      ⟨hsort, hqb, hbb, hpb, htier, hoff, hncrit⟩ ht
  | schedule =>
    exact processLoop_inv s.clientWriteLimits s.batchingEnabled s.batchMaxFiles s.clock
      s.pendingQueue s.currentBatch s.promoted s.clientActiveWrites
      ⟨hsort, hqb, hbb, hpb, htier, hoff, hncrit⟩
  | flush =>
    show LoopInv s.clock s.batchingEnabled s.pendingQueue []
      (s.promoted ++ s.currentBatch)
    refine ⟨hsort, hqb, ?_, ?_, ?_, fun _ => rfl, ?_⟩
    · intro x hx
      cases hx
    · intro x hx
      rcases List.mem_append.mp hx with h1 | h1
      · exact hpb x h1
      · exact hbb x h1
    · intro p
      have hre : (s.promoted ++ s.currentBatch) ++ [] ++ s.pendingQueue =
          s.promoted ++ s.currentBatch ++ s.pendingQueue := by
        simp
      rw [hre]
      exact htier p
    · intro x hx
      cases hx
  | complete clientId => exact ⟨hsort, hqb, hbb, hpb, htier, hoff, hncrit⟩
  | setLimit clientId maxConcurrent => exact ⟨hsort, hqb, hbb, hpb, htier, hoff, hncrit⟩

theorem sinv_reachable {s : SState} (h : SReachable s) : SInv s := by
  induction h with
  | init batchingEnabled batchMaxFiles => exact sinv_init batchingEnabled batchMaxFiles
  | step _ hstep ih => exact sinv_step ih hstep

/-- Claim C10: in every reachable scheduler state, the pending queue is
ordered by higher priority first with FIFO (earlier submittedTime first)
inside each priority tier; the requests promoted into the pipeline, within
any single priority tier, appear in strictly increasing submission-time
order — same-priority requests are never reordered; and every still-pending
request is later, within its tier, than every promoted one, so the earlier
submitted request of a tier is always promoted first. -/
theorem claimC10_priority_fifo (s : SState) (h : SReachable s) :
    List.Pairwise StrictBefore s.pendingQueue ∧
    (∀ p, List.Pairwise (fun a b => a.submittedTime < b.submittedTime)
        (s.promoted.filter (fun x => x.priority == p))) ∧
    (∀ a ∈ s.promoted, ∀ b ∈ s.pendingQueue, a.priority = b.priority →
        a.submittedTime < b.submittedTime) := by
  obtain ⟨hsort, _, _, _, htier, _, _⟩ := sinv_reachable h
  refine ⟨hsort, ?_, ?_⟩
  · intro p
    have hold := htier p
    rw [List.filter_append, List.filter_append, List.pairwise_append] at hold
    exact (List.pairwise_append.mp hold.1).1
  · intro a ha b hbmem hp
    have hold := htier a.priority
    rw [List.filter_append, List.filter_append, List.pairwise_append] at hold
    have hmema : a ∈ s.promoted.filter (fun x => x.priority == a.priority) :=
      List.mem_filter.mpr ⟨ha, beq_iff_eq.mpr rfl⟩
    have hmemb : b ∈ s.pendingQueue.filter (fun x => x.priority == a.priority) :=
      List.mem_filter.mpr ⟨hbmem, beq_iff_eq.mpr hp.symm⟩
    exact hold.2.2 a (List.mem_append.mpr (Or.inl hmema)) b hmemb

/-- Witness for claim C10: two NORMAL-priority submissions at times 1 and 2
followed by one scheduler pass (batching disabled, no limits) promote both in
submission order. -/
theorem claimC10_priority_fifo_witness :
    List.Pairwise (fun a b => a.submittedTime < b.submittedTime)
      ((processPendingWrites
          (submitWrite (submitWrite (schedulerInit false 10) 1 1 1) 2 1 2)).promoted.filter
        (fun x => x.priority == 1)) := by
  have h0 : SReachable (schedulerInit false 10) := SReachable.init false 10
  have h1 := SReachable.step h0 (SStep.submit (schedulerInit false 10) 1 1 1 (by decide))
  have h2 := SReachable.step h1
    (SStep.submit (submitWrite (schedulerInit false 10) 1 1 1) 2 1 2 (by decide))
  have h3 := SReachable.step h2
    (SStep.schedule (submitWrite (submitWrite (schedulerInit false 10) 1 1 1) 2 1 2))
  exact (claimC10_priority_fifo _ h3).2.1 1

end WriteQueueManager

namespace UsbBridge

/-- The coordinator state claim C2 examines: the arbitrator state, the
pipeline pause flag, the pending operation queue, and the operation the
worker is currently executing against the device — between the pop at
FileOperationQueue.cpp line 253 and the terminal update at lines 262 to 285
the worker runs executeOperation outside every lock — if any. -/
structure BState where
  locker : MutexLocker.LockerState
  paused : Bool
  opQueue : List Nat
  workerCurrent : Option Nat
deriving DecidableEq, Repr

def bridgeInit : BState :=
  { locker := MutexLocker.initialState, paused := false, opQueue := [],
    workerCurrent := none }

/-- Interleaved transitions of the pipeline worker and of
UsbBridge::requestDirectAccess / releaseDirectAccess (UsbBridge.cpp lines 318
to 348).  The worker dequeues only while the queue is not paused (the wait
predicate at FileOperationQueue.cpp lines 246 to 248), but pause() merely
sets m_paused — an operation already dequeued keeps executing.
requestDirectAccess pauses the queue and then calls the locker; when the
wait predicate is satisfied at once (board-managed and unblocked) the grant
is issued immediately, with no wait for the in-flight operation; a denied
request resumes the queue, and releaseDirectAccess releases the grant and
resumes. -/
inductive BStep : BState → BState → Prop
  | submitOp (s : BState) (i : Nat) :
      BStep s { s with opQueue := s.opQueue ++ [i] }
  | workerFetch (s : BState) (i : Nat) (rest : List Nat)
      (hq : s.opQueue = i :: rest) (hp : s.paused = false)
      (hw : s.workerCurrent = none) :
      BStep s { s with opQueue := rest, workerCurrent := some i }
  | workerFinish (s : BState) (i : Nat) (h : s.workerCurrent = some i) :
      BStep s { s with workerCurrent := none }
  | requestDirectGranted (s : BState) (clientId : String)
      (clientType : MutexLocker.ClientType) (operationId now : Nat)
      (hb : s.locker.blocked = false)
      (hm : s.locker.currentMode = MutexLocker.AccessMode.BOARD_MANAGED) :
      BStep s { s with
        paused := true
        locker := (MutexLocker.grantDirectAccess s.locker clientId clientType
          operationId now).2 }
  | requestDirectDenied (s : BState) :
      BStep s { s with paused := false }
  | releaseDirect (s : BState) (clientId : String) :
      BStep s { s with locker := MutexLocker.releaseDirectAccess s.locker clientId,
                       paused := false }

inductive BReachable : BState → Prop
  | init : BReachable bridgeInit
  | step {s s' : BState} : BReachable s → BStep s s' → BReachable s'

/-- Claim C2 fails on the code: a state in which the pipeline worker is
still executing operation 1 against the device while a direct-access grant
is active — and the queue already paused — is reachable.  pause() at
UsbBridge.cpp line 326 only sets the flag checked between operations; it
does not wait for the operation the worker dequeued at
FileOperationQueue.cpp line 253 to finish, so the grant at line 328 can be
issued while that operation is mid-execution. -/
theorem claimC2_worker_grant_overlap :
    ∃ s : BState, BReachable s ∧ s.workerCurrent = some 1 ∧ s.paused = true ∧
      (MutexLocker.getActiveGrants s.locker).length = 1 := by
  refine ⟨{ locker := (MutexLocker.grantDirectAccess MutexLocker.initialState "usb1"
              MutexLocker.ClientType.USB_HOST_1 1 0).2,
            paused := true, opQueue := [], workerCurrent := some 1 }, ?_, rfl, rfl, ?_⟩
  · have h1 := BReachable.step BReachable.init (BStep.submitOp bridgeInit 1)
    have h2 := BReachable.step h1 (BStep.workerFetch _ 1 [] rfl rfl rfl)
    exact BReachable.step h2 (BStep.requestDirectGranted _ "usb1"
      MutexLocker.ClientType.USB_HOST_1 1 0 rfl rfl)
  · rfl

end UsbBridge
